import Mathlib

/-!
# Verification of the encryption/decryption service of custom-board-data-generator

This file shallowly embeds the server-side encryption service of the
repository (the `/api/encrypt` handler in `src/api/encrypt.js`, the
`/api/decrypt` handler, and the client service layer in
`src/services/cryptoService.ts`) and proves properties about it.

Modelling conventions:
* JavaScript byte buffers are `List Byte` with `Byte := Fin 256`.
* `JSON.stringify` / `JSON.parse` are embedded as an executable renderer and
  a fuel-based recursive-descent parser over a `Js` value type.  The model
  restricts JSON numbers to integer numerals (the application only handles
  such payloads; IEEE-754 float semantics are out of scope) and string
  escapes to the set `JSON.stringify` emits plus the standard JSON escapes.
* `TextEncoder.encode` / `TextDecoder.decode` are embedded as an injective
  fixed-width code-point codec (`textEncode` / `textDecode`).  The handlers
  never inspect the encoded bytes, only round-trip through them, so any
  injective codec is a faithful stand-in for UTF-8 here.
* `Buffer.from(_, 'base64')` / `Buffer.toString('base64')` are embedded
  exactly: RFC 4648 encoding with padding, and Node's lenient decoding that
  silently skips characters outside the base64 alphabet (it never throws).
* PBKDF2 key derivation is embedded symbolically: a derived key is the pair
  of the key material bytes and the salt (`DerivedKey`), which captures
  exactly the determinism and distinctness properties of PBKDF2 used here.
* AES-GCM is embedded as an ideal AEAD: `aeadSeal` tags an injective
  serialization of (key material, salt, iv, message) with a mod-256 checksum
  byte, and `aeadOpen` succeeds exactly on untampered sealed values under
  the same key and iv.  This gives the AEAD interface's guarantees
  (round-trip, wrong-key failure, single-byte tamper detection) that
  `crypto.subtle` provides; confidentiality is not modelled.
* `crypto.subtle.digest('SHA-256')` (the user-password hash) is a parameter
  `H : String → String` of the handler model, standing for the hex digest.
-/

/-- A byte, as stored in a `Uint8Array` / Node `Buffer`. -/
abbrev Byte := Fin 256

/-- A byte buffer. -/
abbrev Bytes := List Byte

namespace CBDG

/-! ## The JavaScript JSON value model -/

/-- A JavaScript JSON value, as produced by `JSON.parse`.  Objects are kept
as association lists in property order; numbers are restricted to integer
numerals (see the module docstring). -/
inductive Js where
  | null : Js
  | bool (b : Bool) : Js
  | num (n : Int) : Js
  | str (s : String) : Js
  | arr (elems : List Js) : Js
  | obj (fields : List (String × Js)) : Js

/-- JavaScript truthiness of a JSON value (`if (v)`): `null`, `false`, `0`
and the empty string are falsy; arrays and objects are always truthy. -/
def Js.truthy : Js → Bool
  | .null => false
  | .bool b => b
  | .num n => !(n == 0)
  | .str s => !(s == "")
  | .arr _ => true
  | .obj _ => true

/-! ### `JSON.stringify` -/

/-- Lowercase hex digit for `n % 16`. -/
def hexDig (n : Nat) : Char :=
  if n % 16 < 10 then Char.ofNat ('0'.toNat + n % 16)
  else Char.ofNat ('a'.toNat + (n % 16 - 10))

/-- One character as `JSON.stringify` emits it inside a string literal:
quote and backslash escaped, the five short escapes, `\u00xx` for the
remaining control characters, every other character verbatim. -/
def escChar (c : Char) : List Char :=
  match c with
  | '\\' => ['\\', '\\']
  | '"' => ['\\', '"']
  | '\t' => ['\\', 't']
  | '\r' => ['\\', 'r']
  | '\n' => ['\\', 'n']
  | '\x0c' => ['\\', 'f']
  | '\x08' => ['\\', 'b']
  | c =>
    if c.toNat < 32 then
      ['\\', 'u', '0', '0', hexDig (c.toNat / 16), hexDig c.toNat]
    else [c]

/-- A rendered string literal, quotes included. -/
def strLit (s : String) : List Char :=
  '"' :: (s.toList.flatMap escChar ++ ['"'])

/-- Decimal digits of `n`, most significant first, onto `acc`; structural on
`fuel` so that it evaluates by kernel reduction (`fuel > n` is enough). -/
def natCharsGo : Nat → Nat → List Char → List Char
  | 0, _, acc => acc
  | fuel + 1, n, acc =>
    if n < 10 then Char.ofNat ('0'.toNat + n % 10) :: acc
    else natCharsGo fuel (n / 10) (Char.ofNat ('0'.toNat + n % 10) :: acc)

/-- Decimal digits of `n`, most significant first. -/
def natChars (n : Nat) : List Char := natCharsGo (n + 1) n []

/-- Decimal rendering of an integer, as `JSON.stringify` prints it. -/
def intChars (i : Int) : List Char :=
  (if i < 0 then ['-'] else []) ++ natChars i.natAbs

mutual
/-- `JSON.stringify`, to a character list. -/
def Js.out : Js → List Char
  | .null => 'n' :: ['u', 'l', 'l']
  | .bool true => 't' :: ['r', 'u', 'e']
  | .bool false => 'f' :: ['a', 'l', 's', 'e']
  | .num i => intChars i
  | .str s => strLit s
  | .arr es => '[' :: (Js.outArr es ++ [']'])
  | .obj ms => '\x7b' :: (Js.outObj ms ++ ['\x7d'])
/-- The body of a rendered array. -/
def Js.outArr : List Js → List Char
  | [] => []
  | v :: vs => Js.out v ++ Js.outArrTail vs
/-- The `,`-prefixed continuation of a rendered array body. -/
def Js.outArrTail : List Js → List Char
  | [] => []
  | v :: vs => ',' :: (Js.out v ++ Js.outArrTail vs)
/-- The body of a rendered object. -/
def Js.outObj : List (String × Js) → List Char
  | [] => []
  | (k, v) :: ms => strLit k ++ ':' :: (Js.out v ++ Js.outObjTail ms)
/-- The `,`-prefixed continuation of a rendered object body. -/
def Js.outObjTail : List (String × Js) → List Char
  | [] => []
  | (k, v) :: ms => ',' :: (strLit k ++ ':' :: (Js.out v ++ Js.outObjTail ms))
end

/-- `JSON.stringify`. -/
def jsRender (v : Js) : String := ⟨Js.out v⟩

/-! ### `JSON.parse` -/

/-- JSON whitespace. -/
def isJsonWs (c : Char) : Bool := c == ' ' || c == '\t' || c == '\n' || c == '\r'

/-- Drop leading JSON whitespace. -/
def dropWs : List Char → List Char
  | c :: cs => if isJsonWs c then dropWs cs else c :: cs
  | [] => []

/-- Is `c` a decimal digit? -/
def isDig (c : Char) : Bool := '0' ≤ c && c ≤ '9'

/-- Split off the longest leading digit run. -/
def digitSpan : List Char → List Char × List Char
  | c :: cs =>
    if isDig c then
      let (ds, r) := digitSpan cs
      (c :: ds, r)
    else ([], c :: cs)
  | [] => ([], [])

/-- Numeric value of a digit run. -/
def digitsVal (ds : List Char) : Nat :=
  ds.foldl (fun acc c => acc * 10 + (c.toNat - '0'.toNat)) 0

/-- A leading natural-number numeral: a nonempty digit run without a
redundant leading zero (JSON rejects `01`). -/
def scanNat (cs : List Char) : Option (Nat × List Char) :=
  match digitSpan cs with
  | ([], _) => none
  | (c :: t, r) =>
    if c = '0' ∧ t ≠ [] then none else some (digitsVal (c :: t), r)

/-- A leading integer numeral with optional minus sign. -/
def scanInt (cs : List Char) : Option (Int × List Char) :=
  match cs with
  | [] => none
  | c :: rest =>
    if c = '-' then (scanNat rest).map (fun p => (-(p.1 : Int), p.2))
    else (scanNat (c :: rest)).map (fun p => ((p.1 : Int), p.2))

/-- Value of a hex digit character, if it is one. -/
def hexVal (c : Char) : Option Nat :=
  let n := c.toNat
  if 48 ≤ n && n ≤ 57 then some (n - 48)
  else if 97 ≤ n && n ≤ 102 then some (n - 97 + 10)
  else if 65 ≤ n && n ≤ 70 then some (n - 65 + 10)
  else none

/-- The inverse of a single-character JSON escape. -/
def unescChar : Char → Option Char
  | '"' => some '"'
  | '\\' => some '\\'
  | '/' => some '/'
  | 'b' => some '\x08'
  | 'f' => some '\x0c'
  | 'n' => some '\n'
  | 'r' => some '\r'
  | 't' => some '\t'
  | _ => none

/-- Decode a `\uXXXX` escape body; escapes in the surrogate range are
rejected (the model has no lone surrogates). -/
def hex4 (a b c d : Char) : Option Char :=
  match hexVal a, hexVal b, hexVal c, hexVal d with
  | some va, some vb, some vc, some vd =>
    let n := ((va * 16 + vb) * 16 + vc) * 16 + vd
    if n < 0xd800 then some (Char.ofNat n) else none
  | _, _, _, _ => none

/-- Scan a string literal body after the opening quote.  Raw control
characters are rejected, as JSON requires. -/
def scanStr (acc : List Char) : List Char → Option (String × List Char)
  | [] => none
  | c :: rest =>
    if c = '"' then some (⟨acc.reverse⟩, rest)
    else if c = '\\' then
      match rest with
      | [] => none
      | e :: rest2 =>
        if e = 'u' then
          match rest2 with
          | a :: b :: c2 :: d :: rest3 =>
            match hex4 a b c2 d with
            | some ch => scanStr (ch :: acc) rest3
            | none => none
          | _ => none
        else
          match unescChar e with
          | some ch => scanStr (ch :: acc) rest2
          | none => none
    else if c.toNat < 32 then none
    else scanStr (c :: acc) rest

mutual
/-- One JSON value, by recursive descent; `fuel` dominates the input length. -/
def scanVal : Nat → List Char → Option (Js × List Char)
  | 0, _ => none
  | fuel + 1, cs =>
    match dropWs cs with
    | 'n' :: 'u' :: 'l' :: 'l' :: r => some (.null, r)
    | 't' :: 'r' :: 'u' :: 'e' :: r => some (.bool true, r)
    | 'f' :: 'a' :: 'l' :: 's' :: 'e' :: r => some (.bool false, r)
    | '"' :: r => (scanStr [] r).map (fun p => (.str p.1, p.2))
    | '[' :: r =>
      match dropWs r with
      | ']' :: r2 => some (.arr [], r2)
      | cs2 => (scanArr fuel cs2).map (fun p => (.arr p.1, p.2))
    | '\x7b' :: r =>
      match dropWs r with
      | '\x7d' :: r2 => some (.obj [], r2)
      | cs2 => (scanObj fuel cs2).map (fun p => (.obj p.1, p.2))
    | cs2 => (scanInt cs2).map (fun p => (.num p.1, p.2))
/-- One-or-more comma-separated array elements, up to the closing bracket. -/
def scanArr : Nat → List Char → Option (List Js × List Char)
  | 0, _ => none
  | fuel + 1, cs =>
    match scanVal fuel cs with
    | none => none
    | some (v, r) =>
      match dropWs r with
      | ',' :: r2 =>
        match scanArr fuel r2 with
        | some (vs, r3) => some (v :: vs, r3)
        | none => none
      | ']' :: r2 => some ([v], r2)
      | _ => none
/-- One-or-more comma-separated object members, up to the closing brace. -/
def scanObj : Nat → List Char → Option (List (String × Js) × List Char)
  | 0, _ => none
  | fuel + 1, cs =>
    match dropWs cs with
    | '"' :: r =>
      match scanStr [] r with
      | none => none
      | some (k, r1) =>
        match dropWs r1 with
        | ':' :: r2 =>
          match scanVal fuel r2 with
          | none => none
          | some (v, r3) =>
            match dropWs r3 with
            | ',' :: r4 =>
              match scanObj fuel r4 with
              | some (ms, r5) => some ((k, v) :: ms, r5)
              | none => none
            | '\x7d' :: r4 => some ([(k, v)], r4)
            | _ => none
        | _ => none
    | _ => none
end

/-- `JSON.parse`: scan one value and require only whitespace after it. -/
def jsParse (s : String) : Option Js :=
  match scanVal (s.toList.length + 1) s.toList with
  | some (v, r) => if dropWs r = [] then some v else none
  | none => none

/-! ### Round-trip of the integer numeral codec -/

/-- The rest of the input cannot extend a digit run. -/
def noDigHead : List Char → Bool
  | [] => true
  | c :: _ => !isDig c

theorem digitCharFacts (k : Nat) (h : k < 10) :
    (Char.ofNat ('0'.toNat + k)).toNat = '0'.toNat + k
      ∧ isDig (Char.ofNat ('0'.toNat + k)) = true := by
  interval_cases k <;> exact ⟨by decide, by decide⟩

theorem natCharsGo_succ (f n : Nat) (acc : List Char) :
    natCharsGo (f + 1) n acc
      = if n < 10 then Char.ofNat ('0'.toNat + n % 10) :: acc
        else natCharsGo f (n / 10) (Char.ofNat ('0'.toNat + n % 10) :: acc) := rfl

theorem natCharsGo_shift :
    ∀ fuel n acc, n < fuel → natCharsGo fuel n acc = natCharsGo fuel n [] ++ acc := by
  intro fuel
  induction fuel with
  | zero => intro n acc h; omega
  | succ f ih =>
    intro n acc hn
    rw [natCharsGo_succ, natCharsGo_succ]
    by_cases h10 : n < 10
    · simp [h10]
    · have hlt : n / 10 < f := by omega
      rw [if_neg h10, if_neg h10, ih (n / 10) (Char.ofNat ('0'.toNat + n % 10) :: acc) hlt,
        ih (n / 10) [Char.ofNat ('0'.toNat + n % 10)] hlt]
      simp

theorem natCharsGo_fuel :
    ∀ f1 f2 n acc, n < f1 → n < f2 → natCharsGo f1 n acc = natCharsGo f2 n acc := by
  intro f1
  induction f1 with
  | zero => intro f2 n acc h; omega
  | succ f ih =>
    intro f2 n acc h1 h2
    match f2 with
    | 0 => omega
    | g + 1 =>
      rw [natCharsGo_succ, natCharsGo_succ]
      by_cases h10 : n < 10
      · simp [h10]
      · rw [if_neg h10, if_neg h10]
        exact ih g (n / 10) _ (by omega) (by omega)

theorem natChars_last (n : Nat) :
    natChars n = (if n < 10 then [] else natChars (n / 10))
      ++ [Char.ofNat ('0'.toNat + n % 10)] := by
  rw [natChars, natCharsGo_succ]
  by_cases h : n < 10
  · simp [h]
  · rw [if_neg h, if_neg h,
      natCharsGo_shift n (n / 10) _ (by omega),
      natCharsGo_fuel n (n / 10 + 1) (n / 10) [] (by omega) (by omega)]
    rfl

theorem natChars_ne_nil (n : Nat) : natChars n ≠ [] := by
  rw [natChars_last]; simp

theorem natChars_all_digits (n : Nat) : ∀ c ∈ natChars n, isDig c = true := by
  induction n using Nat.strong_induction_on with
  | _ n ih =>
    rw [natChars_last]
    intro c hc
    rcases List.mem_append.mp hc with h | h
    · by_cases h10 : n < 10
      · simp [h10] at h
      · exact ih (n / 10) (by omega) c (by simpa [h10] using h)
    · rw [List.mem_singleton] at h
      subst h
      exact (digitCharFacts (n % 10) (Nat.mod_lt _ (by omega))).2

theorem natChars_cons (n : Nat) :
    ∃ c t, natChars n = c :: t ∧ isDig c = true ∧ (c = '0' → n = 0) := by
  induction n using Nat.strong_induction_on with
  | _ n ih =>
    by_cases h : n < 10
    · refine ⟨Char.ofNat ('0'.toNat + n % 10), [], ?_, ?_, ?_⟩
      · rw [natChars_last]; simp [h]
      · exact (digitCharFacts (n % 10) (Nat.mod_lt _ (by omega))).2
      · intro hc
        have := congrArg Char.toNat hc
        rw [(digitCharFacts (n % 10) (Nat.mod_lt _ (by omega))).1] at this
        omega
    · obtain ⟨c, t, hct, hdig, hz⟩ := ih (n / 10) (by omega)
      refine ⟨c, t ++ [Char.ofNat ('0'.toNat + n % 10)], ?_, hdig, ?_⟩
      · rw [natChars_last, if_neg h, hct]; simp
      · intro hc
        have := hz hc
        omega

theorem natChars_foldl (n : Nat) :
    (natChars n).foldl (fun acc c => acc * 10 + (c.toNat - '0'.toNat)) 0 = n := by
  induction n using Nat.strong_induction_on with
  | _ n ih =>
    rw [natChars_last, List.foldl_append]
    by_cases h : n < 10
    · simp only [if_pos h, List.foldl_nil, List.foldl_cons]
      rw [(digitCharFacts (n % 10) (Nat.mod_lt _ (by omega))).1]
      omega
    · simp only [if_neg h, List.foldl_cons, List.foldl_nil]
      rw [ih (n / 10) (by omega), (digitCharFacts (n % 10) (Nat.mod_lt _ (by omega))).1]
      omega

theorem digitsVal_natChars (n : Nat) : digitsVal (natChars n) = n :=
  natChars_foldl n

theorem digitSpan_stop {cs : List Char} (h : noDigHead cs = true) :
    digitSpan cs = ([], cs) := by
  match cs with
  | [] => rfl
  | c :: t =>
    simp only [noDigHead, Bool.not_eq_true'] at h
    simp [digitSpan, h]

theorem digitSpan_run (ds : List Char) (hds : ∀ c ∈ ds, isDig c = true)
    (rest : List Char) (hr : digitSpan rest = ([], rest)) :
    digitSpan (ds ++ rest) = (ds, rest) := by
  induction ds with
  | nil => simpa using hr
  | cons c t ih =>
    have hc : isDig c = true := hds c (by simp)
    have ht := ih (fun x hx => hds x (by simp [hx]))
    simp [digitSpan, hc, ht]

theorem scanNat_natChars (n : Nat) (rest : List Char) (hr : noDigHead rest = true) :
    scanNat (natChars n ++ rest) = some (n, rest) := by
  obtain ⟨c, t, hct, hdig, hz⟩ := natChars_cons n
  have hspan : digitSpan (natChars n ++ rest) = (natChars n, rest) :=
    digitSpan_run _ (natChars_all_digits n) _ (digitSpan_stop hr)
  have hcond : ¬(c = '0' ∧ t ≠ []) := by
    rintro ⟨rfl, hne⟩
    have h0 := hz rfl
    subst h0
    have hnat : natChars 0 = ['0'] := by decide
    rw [hnat] at hct
    injection hct with h1 h2
    exact hne h2.symm
  rw [scanNat.eq_def, hspan, hct]
  show (if c = '0' ∧ t ≠ [] then none else some (digitsVal (c :: t), rest)) = some (n, rest)
  rw [if_neg hcond, ← hct, digitsVal_natChars]

theorem isDig_ne_minus {c : Char} (h : isDig c = true) : c ≠ '-' := by
  intro hc; subst hc; exact absurd h (by decide)

theorem scanInt_intChars (i : Int) (rest : List Char) (hr : noDigHead rest = true) :
    scanInt (intChars i ++ rest) = some (i, rest) := by
  by_cases hneg : i < 0
  · have harg : intChars i ++ rest = '-' :: (natChars i.natAbs ++ rest) := by
      simp [intChars, hneg]
    rw [harg, scanInt, if_pos rfl, scanNat_natChars _ _ hr]
    simp only [Option.map_some']
    congr 1
    refine Prod.ext ?_ rfl
    simp only
    omega
  · obtain ⟨c, t, hct, hdig, _⟩ := natChars_cons i.natAbs
    have harg : intChars i ++ rest = c :: (t ++ rest) := by
      simp [intChars, hneg, hct]
    rw [harg, scanInt, if_neg (isDig_ne_minus hdig), ← List.cons_append, ← hct,
      scanNat_natChars _ _ hr]
    simp only [Option.map_some']
    congr 1
    refine Prod.ext ?_ rfl
    simp only
    omega

/-! ### Round-trip of the string literal codec -/

theorem hexVal_hexDig (m : Nat) : hexVal (hexDig m) = some (m % 16) := by
  have key : ∀ k : Fin 16, hexVal (hexDig k.val) = some k.val := by decide
  have h16 : m % 16 < 16 := Nat.mod_lt _ (by omega)
  have hmod : m % 16 % 16 = m % 16 := by omega
  have hdig : hexDig (m % 16) = hexDig m := by
    simp only [hexDig, hmod]
  rw [← hdig]
  exact key ⟨m % 16, h16⟩

theorem hex4_control {n : Nat} (h : n < 32) :
    hex4 '0' '0' (hexDig (n / 16)) (hexDig n) = some (Char.ofNat n) := by
  rw [hex4]
  have hv : hexVal '0' = some 0 := by decide
  rw [hv, hexVal_hexDig, hexVal_hexDig]
  have hu : (n / 16) % 16 = n / 16 := by omega
  have hn2 : ((0 * 16 + 0) * 16 + n / 16 % 16) * 16 + n % 16 = n := by omega
  simp only [hn2]
  rw [if_pos (by omega)]

theorem scanStr_cons (acc : List Char) (c : Char) (rest : List Char) :
    scanStr acc (c :: rest)
      = if c = '"' then some (⟨acc.reverse⟩, rest)
        else if c = '\\' then
          (match rest with
           | [] => none
           | e :: rest2 =>
             if e = 'u' then
               match rest2 with
               | a :: b :: c2 :: d :: rest3 =>
                 match hex4 a b c2 d with
                 | some ch => scanStr (ch :: acc) rest3
                 | none => none
               | _ => none
             else
               match unescChar e with
               | some ch => scanStr (ch :: acc) rest2
               | none => none)
        else if c.toNat < 32 then none
        else scanStr (c :: acc) rest := by
  rw [scanStr.eq_def]

theorem scanStr_escChar (c : Char) (acc rest : List Char) :
    scanStr acc (escChar c ++ rest) = scanStr (c :: acc) rest := by
  rw [escChar.eq_def]
  split
  · simp only [List.cons_append, List.nil_append]
    rw [scanStr_cons]; simp [unescChar, scanStr_cons]
  · simp only [List.cons_append, List.nil_append]
    rw [scanStr_cons]; simp [unescChar, scanStr_cons]
  · simp only [List.cons_append, List.nil_append]
    rw [scanStr_cons]; simp [unescChar, scanStr_cons]
  · simp only [List.cons_append, List.nil_append]
    rw [scanStr_cons]; simp [unescChar, scanStr_cons]
  · simp only [List.cons_append, List.nil_append]
    rw [scanStr_cons]; simp [unescChar, scanStr_cons]
  · simp only [List.cons_append, List.nil_append]
    rw [scanStr_cons]; simp [unescChar, scanStr_cons]
  · simp only [List.cons_append, List.nil_append]
    rw [scanStr_cons]; simp [unescChar, scanStr_cons]
  · rename_i hbs hq hn hr ht hf hb
    by_cases h32 : c.toNat < 32
    · simp only [if_pos h32, List.cons_append, List.nil_append]
      rw [scanStr_cons]
      simp only [reduceIte]
      rw [hex4_control h32, Char.ofNat_toNat]
      simp
    · simp only [if_neg h32, List.cons_append, List.nil_append]
      rw [scanStr_cons, if_neg hq, if_neg hbs, if_neg h32]

theorem scanStr_escRun (cs : List Char) :
    ∀ acc rest, scanStr acc (cs.flatMap escChar ++ '"' :: rest)
      = some (⟨acc.reverse ++ cs⟩, rest) := by
  induction cs with
  | nil => intro acc rest; rw [List.flatMap_nil, List.nil_append, scanStr_cons]; simp
  | cons c cs ih =>
    intro acc rest
    rw [List.flatMap_cons, List.append_assoc, scanStr_escChar, ih]
    simp

theorem scanStr_strLit (s : String) (rest : List Char) :
    scanStr [] (s.toList.flatMap escChar ++ '"' :: rest) = some (s, rest) := by
  rw [scanStr_escRun]
  simp [String.toList]

/-! ### Character-class facts for the value scanner -/

theorem isDig_not_special {c : Char} (h : isDig c = true) :
    isJsonWs c = false ∧ c ≠ ']' ∧ c ≠ '\x7d' := by
  refine ⟨?_, ?_, ?_⟩
  · simp only [isJsonWs, Bool.or_eq_false_iff, beq_eq_false_iff_ne]
    refine ⟨⟨⟨?_, ?_⟩, ?_⟩, ?_⟩ <;> (intro e; subst e; exact absurd h (by decide))
  · intro e; subst e; exact absurd h (by decide)
  · intro e; subst e; exact absurd h (by decide)

theorem isDig_not_head {c : Char} (h : isDig c = true) :
    c ≠ 'n' ∧ c ≠ 't' ∧ c ≠ 'f' ∧ c ≠ '"' ∧ c ≠ '[' ∧ c ≠ '\x7b' := by
  refine ⟨?_, ?_, ?_, ?_, ?_, ?_⟩ <;> (intro e; subst e; exact absurd h (by decide))

theorem dropWs_cons {c : Char} {t : List Char} (h : isJsonWs c = false) :
    dropWs (c :: t) = c :: t := by
  simp [dropWs, h]

theorem scanVal_succ (f : Nat) (cs : List Char) :
    scanVal (f + 1) cs
      = (match dropWs cs with
         | 'n' :: 'u' :: 'l' :: 'l' :: r => some (.null, r)
         | 't' :: 'r' :: 'u' :: 'e' :: r => some (.bool true, r)
         | 'f' :: 'a' :: 'l' :: 's' :: 'e' :: r => some (.bool false, r)
         | '"' :: r => (scanStr [] r).map (fun p => (.str p.1, p.2))
         | '[' :: r =>
           match dropWs r with
           | ']' :: r2 => some (.arr [], r2)
           | cs2 => (scanArr f cs2).map (fun p => (.arr p.1, p.2))
         | '\x7b' :: r =>
           match dropWs r with
           | '\x7d' :: r2 => some (.obj [], r2)
           | cs2 => (scanObj f cs2).map (fun p => (.obj p.1, p.2))
         | cs2 => (scanInt cs2).map (fun p => (.num p.1, p.2))) := by
  rw [scanVal.eq_def]

theorem scanArr_succ (f : Nat) (cs : List Char) :
    scanArr (f + 1) cs
      = (match scanVal f cs with
         | none => none
         | some (v, r) =>
           match dropWs r with
           | ',' :: r2 =>
             match scanArr f r2 with
             | some (vs, r3) => some (v :: vs, r3)
             | none => none
           | ']' :: r2 => some ([v], r2)
           | _ => none) := by
  rw [scanArr.eq_def]

theorem scanObj_succ (f : Nat) (cs : List Char) :
    scanObj (f + 1) cs
      = (match dropWs cs with
         | '"' :: r =>
           match scanStr [] r with
           | none => none
           | some (k, r1) =>
             match dropWs r1 with
             | ':' :: r2 =>
               match scanVal f r2 with
               | none => none
               | some (v, r3) =>
                 match dropWs r3 with
                 | ',' :: r4 =>
                   match scanObj f r4 with
                   | some (ms, r5) => some ((k, v) :: ms, r5)
                   | none => none
                 | '\x7d' :: r4 => some ([(k, v)], r4)
                 | _ => none
             | _ => none
         | _ => none) := by
  rw [scanObj.eq_def]

/-- Every rendered value begins with a character that is not whitespace and
closes neither an array nor an object. -/
theorem out_head (v : Js) :
    ∃ c t, Js.out v = c :: t ∧ isJsonWs c = false ∧ c ≠ ']' ∧ c ≠ '\x7d' := by
  cases v with
  | num i =>
    by_cases hneg : i < 0
    · refine ⟨'-', natChars i.natAbs, ?_, by decide, by decide, by decide⟩
      simp [Js.out, intChars, hneg]
    · obtain ⟨c, t, hct, hdig, _⟩ := natChars_cons i.natAbs
      obtain ⟨hws, hbr, hbc⟩ := isDig_not_special hdig
      refine ⟨c, t, ?_, hws, hbr, hbc⟩
      simp [Js.out, intChars, hneg, hct]
  | null => refine ⟨'n', _, rfl, ?_, ?_, ?_⟩ <;> decide
  | bool b =>
    cases b
    · refine ⟨'f', _, rfl, ?_, ?_, ?_⟩ <;> decide
    · refine ⟨'t', _, rfl, ?_, ?_, ?_⟩ <;> decide
  | str s => refine ⟨'"', _, rfl, ?_, ?_, ?_⟩ <;> decide
  | arr es => refine ⟨'[', _, rfl, ?_, ?_, ?_⟩ <;> decide
  | obj ms => refine ⟨'\x7b', _, rfl, ?_, ?_, ?_⟩ <;> decide

theorem dropWs_out (v : Js) (x : List Char) :
    dropWs (Js.out v ++ x) = Js.out v ++ x := by
  obtain ⟨c, t, hct, hws, _, _⟩ := out_head v
  rw [hct, List.cons_append]
  exact dropWs_cons hws

/-! ### The parser inverts the renderer -/

theorem scanVal_plain (f : Nat) (c0 : Char) (t : List Char)
    (hsp : isJsonWs c0 = false) (e1 : c0 ≠ 'n') (e2 : c0 ≠ 't')
    (e3 : c0 ≠ 'f') (e4 : c0 ≠ '"') (e5 : c0 ≠ '[') (e6 : c0 ≠ '\x7b') :
    scanVal (f + 1) (c0 :: t) = (scanInt (c0 :: t)).map (fun p => (.num p.1, p.2)) := by
  rw [scanVal_succ, dropWs_cons hsp]
  simp [e1, e2, e3, e4, e5, e6]

theorem scanVal_num (i : Int) (f : Nat) (rest : List Char) (hr : noDigHead rest = true) :
    scanVal (f + 1) (intChars i ++ rest) = some (.num i, rest) := by
  by_cases hm : i < 0
  · have harg : intChars i ++ rest = '-' :: (natChars i.natAbs ++ rest) := by
      simp [intChars, hm]
    rw [harg, scanVal_plain f '-' _ (by decide) (by decide) (by decide) (by decide)
        (by decide) (by decide) (by decide), ← harg, scanInt_intChars i rest hr]
    rfl
  · obtain ⟨c, t, hct, hdig, _⟩ := natChars_cons i.natAbs
    obtain ⟨hws, _, _⟩ := isDig_not_special hdig
    obtain ⟨hn2, ht2, hf2, hq2, hbk2, hbc2⟩ := isDig_not_head hdig
    have harg : intChars i ++ rest = c :: (t ++ rest) := by
      simp [intChars, hm, hct]
    rw [harg, scanVal_plain f c _ hws hn2 ht2 hf2 hq2 hbk2 hbc2, ← harg,
      scanInt_intChars i rest hr]
    rfl

theorem scanVal_arrStep (f : Nat) (X : List Char) :
    scanVal (f + 1) ('[' :: X)
      = (match dropWs X with
         | ']' :: r2 => some (.arr [], r2)
         | cs2 => (scanArr f cs2).map (fun p => (.arr p.1, p.2))) := rfl

theorem scanVal_objStep (f : Nat) (X : List Char) :
    scanVal (f + 1) ('\x7b' :: X)
      = (match dropWs X with
         | '\x7d' :: r2 => some (.obj [], r2)
         | cs2 => (scanObj f cs2).map (fun p => (.obj p.1, p.2))) := rfl

theorem scanVal_str (f : Nat) (r : List Char) :
    scanVal (f + 1) ('"' :: r) = (scanStr [] r).map (fun p => (.str p.1, p.2)) := rfl

mutual
theorem rt_val : ∀ (v : Js) (f : Nat) (rest : List Char),
    (Js.out v).length < f → noDigHead rest = true →
    scanVal f (Js.out v ++ rest) = some (v, rest)
  | .null, f, rest, hlen, _ => by
    match f with
    | 0 => simp [Js.out] at hlen
    | g + 1 => rfl
  | .bool true, f, rest, hlen, _ => by
    match f with
    | 0 => simp [Js.out] at hlen
    | g + 1 => rfl
  | .bool false, f, rest, hlen, _ => by
    match f with
    | 0 => simp [Js.out] at hlen
    | g + 1 => rfl
  | .num i, f, rest, hlen, hr => by
    match f with
    | 0 => exact absurd hlen (by omega)
    | g + 1 => exact scanVal_num i g rest hr
  | .str s, f, rest, hlen, _ => by
    match f with
    | 0 => exact absurd hlen (by omega)
    | g + 1 =>
      have harg : Js.out (.str s) ++ rest
          = '"' :: (s.toList.flatMap escChar ++ '"' :: rest) := by
        simp [Js.out, strLit]
      rw [harg, scanVal_str, scanStr_strLit]
      rfl
  | .arr [], f, rest, hlen, _ => by
    match f with
    | 0 => simp [Js.out, Js.outArr] at hlen
    | g + 1 =>
      have harg : Js.out (.arr []) ++ rest = '[' :: (']' :: rest) := by
        simp [Js.out, Js.outArr]
      rw [harg, scanVal_arrStep, dropWs_cons (by decide)]
      rfl
  | .arr (v :: vs), f, rest, hlen, hrr => by
    match f with
    | 0 => exact absurd hlen (by omega)
    | g + 1 =>
      have hlen2 : (Js.outArr (v :: vs)).length + 1 < g := by
        have hh : (Js.out (Js.arr (v :: vs))).length
            = (Js.outArr (v :: vs)).length + 2 := by
          simp [Js.out]
        omega
      have key := rt_arr v vs g rest hlen2 hrr
      have harg : Js.out (.arr (v :: vs)) ++ rest
          = '[' :: (Js.outArr (v :: vs) ++ ']' :: rest) := by
        simp [Js.out]
      obtain ⟨c, t, hct, hws, hbr, _⟩ := out_head v
      have hcons : Js.outArr (v :: vs) ++ ']' :: rest
          = c :: (t ++ (Js.outArrTail vs ++ ']' :: rest)) := by
        simp only [Js.outArr, hct, List.cons_append, List.append_assoc]
      rw [hcons] at key
      rw [harg, scanVal_arrStep, hcons, dropWs_cons hws]
      simp [hbr, key]
  | .obj [], f, rest, hlen, _ => by
    match f with
    | 0 => simp [Js.out, Js.outObj] at hlen
    | g + 1 =>
      have harg : Js.out (.obj []) ++ rest = '\x7b' :: ('\x7d' :: rest) := by
        simp [Js.out, Js.outObj]
      rw [harg, scanVal_objStep, dropWs_cons (by decide)]
      rfl
  | .obj ((k, v) :: ms), f, rest, hlen, hrr => by
    match f with
    | 0 => exact absurd hlen (by omega)
    | g + 1 =>
      have hlen2 : (Js.outObj ((k, v) :: ms)).length + 1 < g := by
        have hh : (Js.out (Js.obj ((k, v) :: ms))).length
            = (Js.outObj ((k, v) :: ms)).length + 2 := by
          simp [Js.out]
        omega
      have key := rt_obj k v ms g rest hlen2 hrr
      have harg : Js.out (.obj ((k, v) :: ms)) ++ rest
          = '\x7b' :: (Js.outObj ((k, v) :: ms) ++ '\x7d' :: rest) := by
        simp [Js.out]
      have hcons : Js.outObj ((k, v) :: ms) ++ '\x7d' :: rest
          = '"' :: (k.toList.flatMap escChar
              ++ ('"' :: (':' :: (Js.out v ++ (Js.outObjTail ms ++ '\x7d' :: rest))))) := by
        simp only [Js.outObj, strLit, List.cons_append, List.nil_append,
          List.append_assoc]
      rw [hcons] at key
      rw [harg, scanVal_objStep, hcons, dropWs_cons (by decide)]
      simp only [String.toList] at key
      simp [key]
  termination_by v _ _ _ _ => sizeOf v

theorem rt_arr : ∀ (v : Js) (vs : List Js) (f : Nat) (rest : List Char),
    (Js.outArr (v :: vs)).length + 1 < f → noDigHead rest = true →
    scanArr f (Js.outArr (v :: vs) ++ ']' :: rest) = some (v :: vs, rest)
  | v, [], f, rest, hlen, _ => by
    match f with
    | 0 => omega
    | g + 1 =>
      have hfe : (Js.out v).length < g := by
        simp only [Js.outArr, Js.outArrTail, List.append_nil, List.length_append] at hlen
        omega
      have hv := rt_val v g (']' :: rest) hfe (by rfl)
      have harg : Js.outArr [v] ++ ']' :: rest = Js.out v ++ ']' :: rest := by
        simp [Js.outArr, Js.outArrTail]
      rw [harg, scanArr_succ, hv]
      rfl
  | v, v2 :: vs2, f, rest, hlen, hr => by
    match f with
    | 0 => omega
    | g + 1 =>
      simp only [Js.outArr, Js.outArrTail, List.length_append, List.length_cons] at hlen
      have hfe : (Js.out v).length < g := by omega
      have hfx : (Js.outArr (v2 :: vs2)).length + 1 < g := by
        simp only [Js.outArr, List.length_append]
        omega
      have hv := rt_val v g (',' :: (Js.outArr (v2 :: vs2) ++ ']' :: rest)) hfe (by rfl)
      have key := rt_arr v2 vs2 g rest hfx hr
      have harg : Js.outArr (v :: v2 :: vs2) ++ ']' :: rest
          = Js.out v ++ ',' :: (Js.outArr (v2 :: vs2) ++ ']' :: rest) := by
        simp only [Js.outArr, Js.outArrTail, List.cons_append, List.append_assoc]
      rw [harg, scanArr_succ, hv]
      show (match scanArr g (Js.outArr (v2 :: vs2) ++ ']' :: rest) with
            | some (vs, r3) => some (v :: vs, r3)
            | none => none) = some (v :: v2 :: vs2, rest)
      rw [key]
  termination_by v vs _ _ _ _ => sizeOf v + sizeOf vs

theorem rt_obj : ∀ (k : String) (v : Js) (ms : List (String × Js)) (f : Nat)
      (rest : List Char),
    (Js.outObj ((k, v) :: ms)).length + 1 < f → noDigHead rest = true →
    scanObj f (Js.outObj ((k, v) :: ms) ++ '\x7d' :: rest) = some ((k, v) :: ms, rest)
  | k, v, [], f, rest, hlen, _ => by
    match f with
    | 0 => omega
    | g + 1 =>
      have hfe : (Js.out v).length < g := by
        simp only [Js.outObj, Js.outObjTail, strLit, List.append_nil, List.length_append,
          List.length_cons] at hlen
        omega
      have hv := rt_val v g ('\x7d' :: rest) hfe (by rfl)
      have harg : Js.outObj [(k, v)] ++ '\x7d' :: rest
          = '"' :: (k.toList.flatMap escChar
              ++ ('"' :: (':' :: (Js.out v ++ '\x7d' :: rest)))) := by
        simp [Js.outObj, Js.outObjTail, strLit]
      rw [harg, scanObj_succ, dropWs_cons (by decide)]
      simp only [scanStr_strLit, dropWs_cons (by decide : isJsonWs ':' = false)]
      rw [hv]
      rfl
  | k, v, (k2, v2) :: ms2, f, rest, hlen, hr => by
    match f with
    | 0 => omega
    | g + 1 =>
      simp [Js.outObj, Js.outObjTail, strLit] at hlen
      have hfe : (Js.out v).length < g := by omega
      have hfx : (Js.outObj ((k2, v2) :: ms2)).length + 1 < g := by
        simp [Js.outObj, Js.outObjTail, strLit]
        omega
      have hv := rt_val v g
        (',' :: (Js.outObj ((k2, v2) :: ms2) ++ '\x7d' :: rest)) hfe (by rfl)
      have key := rt_obj k2 v2 ms2 g rest hfx hr
      have harg : Js.outObj ((k, v) :: (k2, v2) :: ms2) ++ '\x7d' :: rest
          = '"' :: (k.toList.flatMap escChar
              ++ ('"' :: (':' :: (Js.out v
                  ++ ',' :: (Js.outObj ((k2, v2) :: ms2) ++ '\x7d' :: rest))))) := by
        simp only [Js.outObj, Js.outObjTail, strLit, List.cons_append, List.nil_append,
          List.append_assoc]
      rw [harg, scanObj_succ, dropWs_cons (by decide)]
      simp only [scanStr_strLit, dropWs_cons (by decide : isJsonWs ':' = false)]
      rw [hv]
      show (match scanObj g (Js.outObj ((k2, v2) :: ms2) ++ '\x7d' :: rest) with
            | some (ms, r5) => some ((k, v) :: ms, r5)
            | none => none) = some ((k, v) :: (k2, v2) :: ms2, rest)
      rw [key]
  termination_by _ v ms _ _ _ _ => sizeOf v + sizeOf ms
end

/-- `JSON.parse` inverts `JSON.stringify` on every modelled value. -/
theorem jsParse_render (v : Js) : jsParse (jsRender v) = some v := by
  have hv := rt_val v ((Js.out v).length + 1) [] (by omega) rfl
  rw [List.append_nil] at hv
  rw [jsParse, jsRender]
  simp only [String.toList]
  rw [hv]
  rfl

/-! ## Byte-level codecs -/

/-- Reduce a natural number to a byte. -/
def byt (n : Nat) : Byte := ⟨n % 256, Nat.mod_lt _ (by omega)⟩

/-! ### The text codec (`TextEncoder` / `TextDecoder`)

Each character becomes three bytes, big-endian over its code point (which is
below `2^21 < 2^24`): an injective, exactly invertible codec standing in for
UTF-8 (see the module docstring). -/

/-- `TextEncoder.encode` in the model codec. -/
def textEncode (s : String) : Bytes :=
  s.toList.flatMap (fun c => [byt (c.toNat / 65536), byt (c.toNat / 256), byt c.toNat])

/-- `TextDecoder.decode` in the model codec: reassemble code points from
3-byte groups. -/
def textDecode : Bytes → Option (List Char)
  | [] => some []
  | b0 :: b1 :: b2 :: rest =>
    let n := b0.val * 65536 + b1.val * 256 + b2.val
    if n < 0xd800 ∨ (0xdfff < n ∧ n < 0x110000) then
      (textDecode rest).map (fun cs => Char.ofNat n :: cs)
    else none
  | _ => none

/-- `TextDecoder.decode`, producing a string. -/
def textDecodeStr (bs : Bytes) : Option String :=
  (textDecode bs).map (fun cs => ⟨cs⟩)

/-! ### Base64 (`Buffer.toString('base64')` / `Buffer.from(_, 'base64')`) -/

/-- The base64 alphabet character for a sextet. -/
def b64Char (n : Nat) : Char :=
  if n < 26 then Char.ofNat ('A'.toNat + n)
  else if n < 52 then Char.ofNat ('a'.toNat + (n - 26))
  else if n < 62 then Char.ofNat ('0'.toNat + (n - 52))
  else if n = 62 then '+' else '/'

/-- The sextet for a character, if it is in the alphabet.  Node accepts both
the standard and the URL-safe alphabet; every other character (including
`=` padding) is skipped by its lenient decoder. -/
def b64Val (c : Char) : Option Nat :=
  if 'A' ≤ c ∧ c ≤ 'Z' then some (c.toNat - 'A'.toNat)
  else if 'a' ≤ c ∧ c ≤ 'z' then some (c.toNat - 'a'.toNat + 26)
  else if '0' ≤ c ∧ c ≤ '9' then some (c.toNat - '0'.toNat + 52)
  else if c = '+' ∨ c = '-' then some 62
  else if c = '/' ∨ c = '_' then some 63
  else none

/-- RFC 4648 base64 encoding with padding, three bytes to four characters. -/
def encB64 : Bytes → List Char
  | a :: b :: c :: rest =>
    b64Char (a.val / 4) :: b64Char (a.val % 4 * 16 + b.val / 16)
      :: b64Char (b.val % 16 * 4 + c.val / 64) :: b64Char (c.val % 64) :: encB64 rest
  | [a, b] =>
    [b64Char (a.val / 4), b64Char (a.val % 4 * 16 + b.val / 16),
     b64Char (b.val % 16 * 4), '=']
  | [a] => [b64Char (a.val / 4), b64Char (a.val % 4 * 16), '=', '=']
  | [] => []

/-- `bufferToBase64` (`Buffer.from(buffer).toString('base64')`). -/
def bufferToBase64 (bs : Bytes) : String := ⟨encB64 bs⟩

/-- Reassemble bytes from a sextet stream, Node style: a final group of two
or three sextets yields one or two bytes, a lone trailing sextet is
dropped. -/
def deSext : List Nat → Bytes
  | s0 :: s1 :: s2 :: s3 :: rest =>
    byt (s0 * 4 + s1 / 16) :: byt (s1 % 16 * 16 + s2 / 4)
      :: byt (s2 % 4 * 64 + s3) :: deSext rest
  | [s0, s1, s2] => [byt (s0 * 4 + s1 / 16), byt (s1 % 16 * 16 + s2 / 4)]
  | [s0, s1] => [byt (s0 * 4 + s1 / 16)]
  | _ => []

/-- `base64ToBuffer` (`Buffer.from(base64, 'base64')`): Node's lenient
decoder, which skips every character outside the alphabet and never
throws. -/
def base64ToBuffer (s : String) : Bytes :=
  deSext (s.toList.filterMap b64Val)

/-! ### Length-delimited serialization (internal to the AEAD model) -/

/-- Self-delimiting encoding of a byte field: zero bytes are doubled and a
`0, 1` terminator ends the field. -/
def serB (bs : Bytes) : Bytes :=
  bs.flatMap (fun b => if b.val = 0 then [b, b] else [b]) ++ [byt 0, byt 1]

/-- Parse one `serB` field, returning it and the remaining input. -/
def deField : Bytes → Option (Bytes × Bytes)
  | [] => none
  | b :: rest =>
    if b.val = 0 then
      match rest with
      | [] => none
      | c :: rest2 =>
        if c.val = 0 then (deField rest2).map (fun p => (b :: p.1, p.2))
        else if c.val = 1 then some ([], rest2)
        else none
    else (deField rest).map (fun p => (b :: p.1, p.2))

/-- The mod-256 checksum byte that models the AEAD authentication tag. -/
def chkSum (l : Bytes) : Byte := byt ((l.map Fin.val).sum)

/-! ### The symbolic PBKDF2 / AES-GCM layer -/

/-- A key derived by PBKDF2, symbolically: determined exactly by the key
material bytes and the salt. -/
structure DerivedKey where
  material : Bytes
  salt : Bytes
deriving DecidableEq

/-- `deriveEncryptionKey` of both handlers: PBKDF2 over
`encoder.encode(getEncryptionKey())` and the salt.  `process.env.ENCRYPTION_KEY`
may be unset; `TextEncoder.encode(undefined)` encodes the default empty
string, so a missing secret derives a key from empty key material. -/
def deriveEncryptionKey (envKey : Option String) (salt : Bytes) : DerivedKey :=
  ⟨textEncode (envKey.getD ""), salt⟩

/-- AES-GCM `encrypt`, idealized: the ciphertext is the tagged serialization
of (key material, salt, iv, message); the final byte is the authentication
tag.  See the module docstring. -/
def aeadSeal (key : DerivedKey) (iv msg : Bytes) : Bytes :=
  let payload := serB key.material ++ serB key.salt ++ serB iv ++ serB msg
  payload ++ [chkSum payload]

/-- AES-GCM `decrypt`, idealized: succeeds exactly on an untampered
`aeadSeal` output under the same key and iv. -/
def aeadOpen (key : DerivedKey) (iv ct : Bytes) : Option Bytes :=
  match ct.reverse with
  | [] => none
  | t :: rp =>
    let payload := rp.reverse
    if t = chkSum payload then
      match deField payload with
      | none => none
      | some (m, r1) =>
        match deField r1 with
        | none => none
        | some (s, r2) =>
          match deField r2 with
          | none => none
          | some (i, r3) =>
            match deField r3 with
            | none => none
            | some (d, r4) =>
              if r4 = [] ∧ m = key.material ∧ s = key.salt ∧ i = iv then some d
              else none
    else none

/-! ### Correctness of the text codec -/

theorem char_toNat_valid (c : Char) :
    c.toNat < 0xd800 ∨ (0xdfff < c.toNat ∧ c.toNat < 0x110000) := by
  rcases c.valid with h | ⟨h1, h2⟩
  · exact Or.inl (UInt32.toNat_lt_of_lt (by decide) h)
  · exact Or.inr ⟨UInt32.lt_toNat_of_lt (by decide) h1,
      UInt32.toNat_lt_of_lt (by decide) h2⟩

theorem char_toNat_lt (c : Char) : c.toNat < 1114112 := by
  rcases char_toNat_valid c with h | ⟨_, h⟩ <;> omega

theorem textDecode_chars : ∀ cs : List Char,
    textDecode (cs.flatMap
      (fun c => [byt (c.toNat / 65536), byt (c.toNat / 256), byt c.toNat])) = some cs := by
  intro cs
  induction cs with
  | nil => rfl
  | cons c cs ih =>
    rw [List.flatMap_cons, List.cons_append, List.cons_append, List.cons_append,
      List.nil_append, textDecode]
    have hb : c.toNat < 1114112 := char_toNat_lt c
    have hn : (byt (c.toNat / 65536)).val * 65536 + (byt (c.toNat / 256)).val * 256
        + (byt c.toNat).val = c.toNat := by
      simp only [byt]
      omega
    rw [hn, if_pos (char_toNat_valid c), ih, Char.ofNat_toNat]
    rfl

theorem textDecodeStr_textEncode (s : String) : textDecodeStr (textEncode s) = some s := by
  rw [textEncode, textDecodeStr, textDecode_chars]
  rfl

theorem textEncode_inj {a b : String} (h : textEncode a = textEncode b) : a = b := by
  have := congrArg textDecodeStr h
  rw [textDecodeStr_textEncode, textDecodeStr_textEncode] at this
  exact Option.some.inj this

/-! ### Correctness of the base64 codec -/

theorem b64Val_b64Char {n : Nat} (h : n < 64) : b64Val (b64Char n) = some n := by
  have key : ∀ k : Fin 64, b64Val (b64Char k.val) = some k.val := by decide
  exact key ⟨n, h⟩

theorem b64Val_pad : b64Val '=' = none := by decide

theorem deSext_cons4 (s0 s1 s2 s3 : Nat) (rest : List Nat) :
    deSext (s0 :: s1 :: s2 :: s3 :: rest)
      = byt (s0 * 4 + s1 / 16) :: byt (s1 % 16 * 16 + s2 / 4)
        :: byt (s2 % 4 * 64 + s3) :: deSext rest := by
  rw [deSext.eq_def]

theorem base64_roundtrip : ∀ bs : Bytes, base64ToBuffer (bufferToBase64 bs) = bs := by
  have key : ∀ bs : Bytes, deSext ((encB64 bs).filterMap b64Val) = bs := by
    intro bs
    induction bs using encB64.induct with
    | case1 a b c rest ih =>
      have e0 : b64Val (b64Char (a.val / 4)) = some (a.val / 4) :=
        b64Val_b64Char (by omega)
      have e1 : b64Val (b64Char (a.val % 4 * 16 + b.val / 16))
          = some (a.val % 4 * 16 + b.val / 16) := b64Val_b64Char (by omega)
      have e2 : b64Val (b64Char (b.val % 16 * 4 + c.val / 64))
          = some (b.val % 16 * 4 + c.val / 64) := b64Val_b64Char (by omega)
      have e3 : b64Val (b64Char (c.val % 64)) = some (c.val % 64) :=
        b64Val_b64Char (by omega)
      simp only [encB64, List.filterMap_cons, e0, e1, e2, e3]
      rw [deSext_cons4, ih]
      have h1 : byt (a.val / 4 * 4 + (a.val % 4 * 16 + b.val / 16) / 16) = a := by
        have := a.isLt; have := b.isLt
        apply Fin.ext
        simp only [byt]
        omega
      have h2 : byt ((a.val % 4 * 16 + b.val / 16) % 16 * 16
          + (b.val % 16 * 4 + c.val / 64) / 4) = b := by
        have := a.isLt; have := b.isLt; have := c.isLt
        apply Fin.ext
        simp only [byt]
        omega
      have h3 : byt ((b.val % 16 * 4 + c.val / 64) % 4 * 64 + c.val % 64) = c := by
        have := b.isLt; have := c.isLt
        apply Fin.ext
        simp only [byt]
        omega
      rw [h1, h2, h3]
    | case2 a b =>
      have e0 : b64Val (b64Char (a.val / 4)) = some (a.val / 4) :=
        b64Val_b64Char (by omega)
      have e1 : b64Val (b64Char (a.val % 4 * 16 + b.val / 16))
          = some (a.val % 4 * 16 + b.val / 16) := b64Val_b64Char (by omega)
      have e2 : b64Val (b64Char (b.val % 16 * 4)) = some (b.val % 16 * 4) :=
        b64Val_b64Char (by omega)
      simp only [encB64, List.filterMap_cons, List.filterMap_nil, e0, e1, e2, b64Val_pad]
      rw [show deSext [a.val / 4, a.val % 4 * 16 + b.val / 16, b.val % 16 * 4]
          = [byt (a.val / 4 * 4 + (a.val % 4 * 16 + b.val / 16) / 16),
             byt ((a.val % 4 * 16 + b.val / 16) % 16 * 16 + b.val % 16 * 4 / 4)] from rfl]
      have h1 : byt (a.val / 4 * 4 + (a.val % 4 * 16 + b.val / 16) / 16) = a := by
        have := a.isLt; have := b.isLt
        apply Fin.ext
        simp only [byt]
        omega
      have h2 : byt ((a.val % 4 * 16 + b.val / 16) % 16 * 16 + b.val % 16 * 4 / 4) = b := by
        have := a.isLt; have := b.isLt
        apply Fin.ext
        simp only [byt]
        omega
      rw [h1, h2]
    | case3 a =>
      have e0 : b64Val (b64Char (a.val / 4)) = some (a.val / 4) :=
        b64Val_b64Char (by omega)
      have e1 : b64Val (b64Char (a.val % 4 * 16)) = some (a.val % 4 * 16) :=
        b64Val_b64Char (by omega)
      simp only [encB64, List.filterMap_cons, List.filterMap_nil, e0, e1, b64Val_pad]
      rw [show deSext [a.val / 4, a.val % 4 * 16]
          = [byt (a.val / 4 * 4 + a.val % 4 * 16 / 16)] from rfl]
      have h1 : byt (a.val / 4 * 4 + a.val % 4 * 16 / 16) = a := by
        have := a.isLt
        apply Fin.ext
        simp only [byt]
        omega
      rw [h1]
    | case4 => rfl
  intro bs
  rw [bufferToBase64, base64ToBuffer]
  simp only [String.toList]
  exact key bs

theorem encB64_ne_nil {bs : Bytes} (h : bs ≠ []) : encB64 bs ≠ [] := by
  match bs with
  | [] => exact absurd rfl h
  | [a] => simp [encB64]
  | [a, b] => simp [encB64]
  | a :: b :: c :: rest => simp [encB64]

theorem bufferToBase64_ne_empty {bs : Bytes} (h : bs ≠ []) : bufferToBase64 bs ≠ "" := by
  intro he
  exact encB64_ne_nil h (congrArg String.data he)

/-! ### Correctness of the field serialization -/

theorem deField_cons (b : Byte) (rest : Bytes) :
    deField (b :: rest)
      = if b.val = 0 then
          (match rest with
           | [] => none
           | c :: rest2 =>
             if c.val = 0 then (deField rest2).map (fun p => (b :: p.1, p.2))
             else if c.val = 1 then some ([], rest2)
             else none)
        else (deField rest).map (fun p => (b :: p.1, p.2)) := by
  rw [deField.eq_def]
  rfl

theorem deField_serB : ∀ (xs rest : Bytes), deField (serB xs ++ rest) = some (xs, rest) := by
  intro xs
  induction xs with
  | nil =>
    intro rest
    rw [show serB [] ++ rest = byt 0 :: (byt 1 :: rest) from rfl, deField_cons]
    rfl
  | cons x xs ih =>
    intro rest
    by_cases hx : x.val = 0
    · have harg : serB (x :: xs) ++ rest = x :: (x :: (serB xs ++ rest)) := by
        simp [serB, hx]
      rw [harg, deField_cons, if_pos hx]
      show (if x.val = 0 then (deField (serB xs ++ rest)).map (fun p => (x :: p.1, p.2))
            else if x.val = 1 then some ([], serB xs ++ rest) else none)
          = some (x :: xs, rest)
      rw [if_pos hx, ih]
      rfl
    · have harg : serB (x :: xs) ++ rest = x :: (serB xs ++ rest) := by
        simp [serB, hx]
      rw [harg, deField_cons, if_neg hx, ih]
      rfl

/-! ### The checksum detects any single-byte change -/

theorem mapValSum_set : ∀ (l : Bytes) (i : Nat) (b : Byte) (h : i < l.length),
    ((l.set i b).map Fin.val).sum + (l.get ⟨i, h⟩).val
      = (l.map Fin.val).sum + b.val := by
  intro l
  induction l with
  | nil => intro i b h; simp at h
  | cons x xs ih =>
    intro i b h
    match i with
    | 0 => simp [List.set]; omega
    | j + 1 =>
      simp only [List.set, List.map_cons, List.sum_cons, List.get]
      have := ih j b (by simpa using h)
      omega

theorem chkSum_set_ne (l : Bytes) (i : Nat) (b : Byte) (h : i < l.length)
    (hne : b ≠ l.get ⟨i, h⟩) : chkSum (l.set i b) ≠ chkSum l := by
  intro heq
  have hsum := mapValSum_set l i b h
  have hv : ((l.set i b).map Fin.val).sum % 256 = ((l.map Fin.val).sum) % 256 := by
    have := congrArg Fin.val heq
    simpa [chkSum, byt] using this
  have hb := b.isLt
  have hg := (l.get ⟨i, h⟩).isLt
  have hbn : b.val ≠ (l.get ⟨i, h⟩).val := fun e => hne (Fin.ext e)
  omega

/-! ### The AEAD guarantees -/

/-- Opening a sealed message succeeds exactly under the sealing key and iv. -/
theorem aeadOpen_seal (key key2 : DerivedKey) (iv iv2 msg : Bytes) :
    aeadOpen key2 iv2 (aeadSeal key iv msg)
      = if key = key2 ∧ iv = iv2 then some msg else none := by
  rw [aeadSeal, aeadOpen]
  simp only [List.reverse_append, List.reverse_cons, List.reverse_nil, List.nil_append,
    List.cons_append, List.reverse_reverse]
  rw [if_true, List.append_assoc, List.append_assoc, deField_serB]
  show (match deField (serB key.salt ++ (serB iv ++ serB msg)) with
        | none => none
        | some (s, r2) =>
          match deField r2 with
          | none => none
          | some (i, r3) =>
            match deField r3 with
            | none => none
            | some (d, r4) =>
              if r4 = [] ∧ key.material = key2.material ∧ s = key2.salt ∧ i = iv2
              then some d else none)
      = if key = key2 ∧ iv = iv2 then some msg else none
  rw [deField_serB]
  show (match deField (serB iv ++ serB msg) with
        | none => none
        | some (i, r3) =>
          match deField r3 with
          | none => none
          | some (d, r4) =>
            if r4 = [] ∧ key.material = key2.material ∧ key.salt = key2.salt ∧ i = iv2
            then some d else none)
      = if key = key2 ∧ iv = iv2 then some msg else none
  rw [deField_serB]
  show (match deField (serB msg) with
        | none => none
        | some (d, r4) =>
          if r4 = [] ∧ key.material = key2.material ∧ key.salt = key2.salt ∧ iv = iv2
          then some d else none)
      = if key = key2 ∧ iv = iv2 then some msg else none
  rw [show serB msg = serB msg ++ [] from (List.append_nil _).symm, deField_serB]
  show (if ([] : Bytes) = []
          ∧ key.material = key2.material ∧ key.salt = key2.salt ∧ iv = iv2
        then some msg else none)
      = if key = key2 ∧ iv = iv2 then some msg else none
  by_cases hc : key = key2 ∧ iv = iv2
  · obtain ⟨h1, h2⟩ := hc
    subst h1
    subst h2
    rw [if_pos ⟨rfl, rfl, rfl, rfl⟩, if_pos ⟨rfl, rfl⟩]
  · have hn : ¬(([] : Bytes) = []
        ∧ key.material = key2.material ∧ key.salt = key2.salt ∧ iv = iv2) := by
      rintro ⟨-, h1, h2, h3⟩
      refine hc ⟨?_, h3⟩
      cases key
      cases key2
      simp_all
    rw [if_neg hn, if_neg hc]

/-- Changing any single byte of a sealed ciphertext makes opening fail,
under every key and iv. -/
theorem aeadOpen_tamper (key key2 : DerivedKey) (iv iv2 msg : Bytes) (i : Nat) (b : Byte)
    (h : i < (aeadSeal key iv msg).length)
    (hne : b ≠ (aeadSeal key iv msg).get ⟨i, h⟩) :
    aeadOpen key2 iv2 ((aeadSeal key iv msg).set i b) = none := by
  have hseal : aeadSeal key iv msg
      = (serB key.material ++ serB key.salt ++ serB iv ++ serB msg)
        ++ [chkSum (serB key.material ++ serB key.salt ++ serB iv ++ serB msg)] := rfl
  have hlen : (aeadSeal key iv msg).length
      = (serB key.material ++ serB key.salt ++ serB iv ++ serB msg).length + 1 := by
    simp [hseal]
    omega
  by_cases hi : i < (serB key.material ++ serB key.salt ++ serB iv ++ serB msg).length
  · have hset : (aeadSeal key iv msg).set i b
        = ((serB key.material ++ serB key.salt ++ serB iv ++ serB msg).set i b)
          ++ [chkSum (serB key.material ++ serB key.salt ++ serB iv ++ serB msg)] := by
      rw [hseal]
      exact List.set_append_left i b hi
    have hget : (aeadSeal key iv msg).get ⟨i, h⟩
        = (serB key.material ++ serB key.salt ++ serB iv ++ serB msg).get ⟨i, hi⟩ := by
      rw [List.get_of_eq hseal ⟨i, h⟩]
      simp only [List.get_eq_getElem]
      exact List.getElem_append_left hi
    rw [hset, aeadOpen]
    simp only [List.reverse_append, List.reverse_cons, List.reverse_nil, List.nil_append,
      List.cons_append, List.reverse_reverse]
    rw [if_neg]
    intro heq
    exact chkSum_set_ne _ i b hi (fun e => hne (hget ▸ e)) heq.symm
  · have hieq : i = (serB key.material ++ serB key.salt ++ serB iv ++ serB msg).length := by
      omega
    have hset : (aeadSeal key iv msg).set i b
        = (serB key.material ++ serB key.salt ++ serB iv ++ serB msg) ++ [b] := by
      rw [hseal, List.set_append_right i b (by omega)]
      congr 1
      rw [hieq, Nat.sub_self]
      rfl
    have hget : (aeadSeal key iv msg).get ⟨i, h⟩
        = chkSum (serB key.material ++ serB key.salt ++ serB iv ++ serB msg) := by
      rw [List.get_of_eq hseal ⟨i, h⟩]
      simp only [List.get_eq_getElem]
      exact List.getElem_concat_length _ _ _ hieq _
    rw [hset, aeadOpen]
    simp only [List.reverse_append, List.reverse_cons, List.reverse_nil, List.nil_append,
      List.cons_append, List.reverse_reverse]
    rw [if_neg]
    intro heq
    exact hne (hget ▸ heq)

/-! ## The crypto service (`src/api/encrypt.js` and the decrypt handler) -/

/-- The `EncryptedData` envelope: salt, iv and ciphertext as base64 text. -/
structure Envelope where
  salt : String
  iv : String
  ciphertext : String
deriving DecidableEq

/-- `encryptWithAppSecret`: derive a key from the server secret and a fresh
salt, AES-GCM-encrypt the encoded plaintext under a fresh iv, and base64
the triple.  The randomness (`crypto.getRandomValues`: 16 salt bytes, 12 iv
bytes) is supplied by the caller. -/
def encryptWithAppSecret (envKey : Option String) (salt iv : Bytes)
    (plainText : String) : Envelope :=
  let key := deriveEncryptionKey envKey salt
  let encryptedContent := aeadSeal key iv (textEncode plainText)
  ⟨bufferToBase64 salt, bufferToBase64 iv, bufferToBase64 encryptedContent⟩

/-- The decrypt request's `encryptedData` object: each field may be absent
(a present non-string field is outside the model). -/
structure EnvelopeDoc where
  salt : Option String
  iv : Option String
  ciphertext : Option String
deriving DecidableEq

/-- An envelope as it appears in a decrypt request body. -/
def Envelope.toDoc (e : Envelope) : EnvelopeDoc :=
  ⟨some e.salt, some e.iv, some e.ciphertext⟩

/-- `decryptWithAppSecret` of the decrypt handler, given the three envelope
fields: base64-decode (leniently, as Node does), derive the key from the
envelope's own salt, and open.  `none` models the AEAD `decrypt` rejection
(`OperationError`), which the handler's catch-all turns into a 500. -/
def decryptWithAppSecret (envKey : Option String) (salt64 iv64 ct64 : String) :
    Option String :=
  let salt := base64ToBuffer salt64
  let iv := base64ToBuffer iv64
  let data := base64ToBuffer ct64
  let key := deriveEncryptionKey envKey salt
  (aeadOpen key iv data).bind textDecodeStr

/-! ### The password gate -/

/-- JavaScript strict equality between a string and a JSON value. -/
def jsStrictEqStr (s : String) (v : Js) : Bool :=
  match v with
  | .str t => s == t
  | _ => false

/-- `verifyUserPassword(password, hash)`: `H` stands for `hashUserPassword`
(the SHA-256 hex digest); the stored hash is whatever JSON value the
decrypted document carried. -/
def verifyUserPassword (H : String → String) (password : String) (hash : Js) : Bool :=
  if !hash.truthy then jsStrictEqStr password hash
  else jsStrictEqStr (H password) hash

/-- Property lookup on an object association list; a duplicated key takes
its last value, as a JavaScript object built by `JSON.parse` would. -/
def getKey (ms : List (String × Js)) (key : String) : Option Js :=
  ms.foldl (fun acc kv => if kv.1 == key then some kv.2 else acc) none

/-- Spread-with-override: replace the key's value in place if present, else
append the property, as `[...o, key: v]`-style object spread does. -/
def setKey (ms : List (String × Js)) (key : String) (v : Js) : List (String × Js) :=
  if ms.any (fun kv => kv.1 == key) then
    ms.map (fun kv => if kv.1 == key then (kv.1, v) else kv)
  else ms ++ [(key, v)]

/-- Rest-destructuring: every occurrence of the key is dropped. -/
def removeKey (ms : List (String × Js)) (key : String) : List (String × Js) :=
  ms.filter (fun kv => !(kv.1 == key))

/-- Object spread of an arbitrary JSON value: objects spread their fields,
arrays and strings their indexed elements, primitives spread nothing. -/
def jsSpread : Js → List (String × Js)
  | .obj ms => ms
  | .arr es => es.enum.map (fun p => (toString p.1, p.2))
  | .str s => s.toList.enum.map (fun p => (toString p.1, .str ⟨[p.2]⟩))
  | _ => []

/-! ### The two handlers (POST path; CORS and non-POST handling omitted) -/

/-- An encrypt request body. -/
structure EncryptReq where
  data : Option Js
  password : Option String

/-- A decrypt request body. -/
structure DecryptReq where
  encryptedData : Option EnvelopeDoc
  password : Option String

/-- What a handler sends: a 200 with `\x7b data \x7d`, a 200 with
`\x7b encrypted \x7d`, or an error status with a message. -/
inductive Resp where
  | okData (data : Js)
  | okEncrypted (encrypted : Envelope)
  | error (status : Nat) (msg : String)

/-- The HTTP status of a response. -/
def Resp.status : Resp → Nat
  | .okData _ => 200
  | .okEncrypted _ => 200
  | .error s _ => s

/-- The error message of a response, when it is an error. -/
def Resp.errMsg : Resp → Option String
  | .error _ m => some m
  | _ => none

/-- The envelope of a successful encrypt response. -/
def Resp.envelope : Resp → Option Envelope
  | .okEncrypted e => some e
  | _ => none

/-- The recovered document of a successful decrypt response, as the client
service layer renders it: `typeof result.data === 'string' ? result.data :
JSON.stringify(result.data)`. -/
def Resp.dataText : Resp → Option String
  | .okData (.str s) => some s
  | .okData v => some (jsRender v)
  | _ => none

/-- JavaScript truthiness of an optional string (an absent or empty value
is falsy). -/
def truthyS : Option String → Bool
  | none => false
  | some s => !(s == "")

/-- The POST body path of the `/api/encrypt` handler.  `H` models
`hashUserPassword` (SHA-256 hex digest). -/
def encryptHandler (H : String → String) (envKey : Option String)
    (salt iv : Bytes) (req : EncryptReq) : Resp :=
  match req.data with
  | none => .error 400 "Data is required for encryption."
  | some d =>
    if !d.truthy then .error 400 "Data is required for encryption."
    else
      match (match d with | .str s => jsParse s | _ => some d) with
      | none => .error 500 "Encryption failed. Please try again."
      | some jsonData0 =>
        let jsonData :=
          if truthyS req.password then
            Js.obj (setKey (jsSpread jsonData0) "passwordHash"
              (.str (H (req.password.getD ""))))
          else jsonData0
        .okEncrypted (encryptWithAppSecret envKey salt iv (jsRender jsonData))

/-- The POST body path of the `/api/decrypt` handler, instrumented: the
second component counts invocations of the cryptographic pipeline
(`decryptWithAppSecret`, i.e. key derivation plus AEAD open). -/
def decryptRun (H : String → String) (envKey : Option String) (req : DecryptReq) :
    Resp × Nat :=
  match req.encryptedData with
  | none => (.error 400 "Encrypted data is required for decryption.", 0)
  | some env =>
    if !(truthyS env.salt && truthyS env.iv && truthyS env.ciphertext) then
      (.error 400 "Invalid encrypted data format.", 0)
    else
      match decryptWithAppSecret envKey (env.salt.getD "") (env.iv.getD "")
          (env.ciphertext.getD "") with
      | none => (.error 500 "Decryption failed. Invalid data or corrupted file.", 1)
      | some decryptedText =>
        let decryptedData := (jsParse decryptedText).getD (.str decryptedText)
        match decryptedData with
        | .obj ms =>
          match getKey ms "passwordHash" with
          | some hv =>
            if hv.truthy then
              if !(truthyS req.password) then
                (.error 401 "Password is required for this encrypted file.", 1)
              else if verifyUserPassword H (req.password.getD "") hv then
                (.okData (.obj (removeKey ms "passwordHash")), 1)
              else (.error 401 "Invalid password provided.", 1)
            else (.okData (.obj ms), 1)
          | none => (.okData (.obj ms), 1)
        | v => (.okData v, 1)

/-- The POST body path of the `/api/decrypt` handler. -/
def decryptHandler (H : String → String) (envKey : Option String)
    (req : DecryptReq) : Resp :=
  (decryptRun H envKey req).fst

/-- What the client service layer's `decryptWithAppSecret`
(`cryptoService.ts`, second variant) delivers to its caller for a given
server response: a non-OK response throws (a 401 as
`Invalid password provided.`, other statuses as a generic message), but the
surrounding catch re-wraps every failure into one fixed message before the
caller sees it; an OK response yields `result.data` as text. -/
def clientDecryptResult (r : Resp) : Except String String :=
  if r.status ≠ 200 then
    .error "Failed to decrypt data. Please check the file and password and try again."
  else
    match r.dataText with
    | some s => .ok s
    | none =>
      .error "Failed to decrypt data. Please check the file and password and try again."

/-- Is a decrypted document password-gated?  (`decryptedData && typeof
decryptedData === 'object' && decryptedData.passwordHash`.) -/
def hasProtection : Js → Bool
  | .obj ms => ((getKey ms "passwordHash").map Js.truthy).getD false
  | _ => false

/-! ### Bridge lemmas between the handlers and the crypto layer -/

theorem aeadSeal_ne_nil (key : DerivedKey) (iv msg : Bytes) :
    aeadSeal key iv msg ≠ [] := by
  simp [aeadSeal]

theorem truthyS_of_ne {s : String} (h : s ≠ "") : truthyS (some s) = true := by
  simp [truthyS, h]

/-- Decrypting a sealed envelope under a secret: succeeds with the sealed
plaintext exactly when the two secrets give the same key material. -/
theorem decryptWithAppSecret_encrypt (envKey envKey2 : Option String)
    (salt iv : Bytes) (text : String) :
    decryptWithAppSecret envKey2
      (bufferToBase64 salt) (bufferToBase64 iv)
      (bufferToBase64 (aeadSeal (deriveEncryptionKey envKey salt) iv (textEncode text)))
      = if envKey.getD "" = envKey2.getD "" then some text else none := by
  rw [decryptWithAppSecret]
  simp only [base64_roundtrip]
  rw [aeadOpen_seal]
  by_cases hc : envKey.getD "" = envKey2.getD ""
  · rw [if_pos hc]
    have hkey : deriveEncryptionKey envKey salt = deriveEncryptionKey envKey2 salt := by
      simp [deriveEncryptionKey, hc]
    rw [if_pos ⟨hkey, rfl⟩]
    exact textDecodeStr_textEncode text
  · rw [if_neg hc, if_neg]
    · rfl
    · rintro ⟨hk, -⟩
      exact hc (textEncode_inj (congrArg DerivedKey.material hk))

/-- The decrypt handler on an envelope produced by `encryptWithAppSecret`
under the same secret: the structural check passes, the pipeline runs once
and recovers the plaintext, and the password gate decides the rest. -/
theorem decryptRun_of_encrypt (H : String → String) (envKey : Option String)
    (salt iv : Bytes) (text : String) (pw : Option String)
    (hs : salt ≠ []) (hiv : iv ≠ []) :
    decryptRun H envKey ⟨some (encryptWithAppSecret envKey salt iv text).toDoc, pw⟩
      = (match (jsParse text).getD (.str text) with
         | .obj ms =>
           match getKey ms "passwordHash" with
           | some hv =>
             if hv.truthy then
               if !(truthyS pw) then
                 (.error 401 "Password is required for this encrypted file.", 1)
               else if verifyUserPassword H (pw.getD "") hv then
                 (.okData (.obj (removeKey ms "passwordHash")), 1)
               else (.error 401 "Invalid password provided.", 1)
             else (.okData (.obj ms), 1)
           | none => (.okData (.obj ms), 1)
         | v => (.okData v, 1)) := by
  have hE : encryptWithAppSecret envKey salt iv text
      = ⟨bufferToBase64 salt, bufferToBase64 iv,
         bufferToBase64 (aeadSeal (deriveEncryptionKey envKey salt) iv
           (textEncode text))⟩ := rfl
  rw [hE, decryptRun]
  rw [show Envelope.toDoc ⟨bufferToBase64 salt, bufferToBase64 iv,
      bufferToBase64 (aeadSeal (deriveEncryptionKey envKey salt) iv (textEncode text))⟩
    = ⟨some (bufferToBase64 salt), some (bufferToBase64 iv),
       some (bufferToBase64 (aeadSeal (deriveEncryptionKey envKey salt) iv
         (textEncode text)))⟩ from rfl]
  rw [show (⟨some (encryptWithAppSecret envKey salt iv text).toDoc, pw⟩ :
    DecryptReq).password = pw from rfl]
  simp only [truthyS_of_ne (bufferToBase64_ne_empty hs),
    truthyS_of_ne (bufferToBase64_ne_empty hiv),
    truthyS_of_ne (bufferToBase64_ne_empty (aeadSeal_ne_nil _ _ _)),
    Bool.and_self, Bool.not_true, Bool.false_eq_true, if_false, Option.getD_some]
  rw [decryptWithAppSecret_encrypt envKey envKey salt iv text, if_pos rfl]

theorem getKey_append_last (ms : List (String × Js)) (k : String) (v : Js) :
    getKey (ms ++ [(k, v)]) k = some v := by
  rw [getKey, List.foldl_append]
  simp

theorem getKey_eq_none {ms : List (String × Js)} {k : String}
    (h : ∀ kv ∈ ms, kv.1 ≠ k) : getKey ms k = none := by
  induction ms with
  | nil => rfl
  | cons kv ms ih =>
    rw [getKey] at ih ⊢
    rw [List.foldl_cons]
    have h1 : (kv.1 == k) = false := by
      simp [h kv (by simp)]
    rw [h1]
    exact ih (fun kv2 h2 => h kv2 (by simp [h2]))

theorem setKey_append {ms : List (String × Js)} {k : String} (v : Js)
    (h : ∀ kv ∈ ms, kv.1 ≠ k) : setKey ms k v = ms ++ [(k, v)] := by
  rw [setKey, if_neg]
  intro hany
  rw [List.any_eq_true] at hany
  obtain ⟨kv, hmem, hbeq⟩ := hany
  exact h kv hmem (by simpa using hbeq)

theorem removeKey_append {ms : List (String × Js)} {k : String} (v : Js)
    (h : ∀ kv ∈ ms, kv.1 ≠ k) : removeKey (ms ++ [(k, v)]) k = ms := by
  rw [removeKey, List.filter_append]
  have h1 : List.filter (fun kv => !(kv.1 == k)) [(k, v)] = [] := by
    simp
  rw [h1, List.append_nil]
  apply List.filter_eq_self.mpr
  intro kv hmem
  simp [h kv hmem]

theorem set_ne_of_get_ne {l : Bytes} {i : Nat} {b : Byte} (h : i < l.length)
    (hne : b ≠ l.get ⟨i, h⟩) : l.set i b ≠ l := by
  intro e
  apply hne
  have h2 : i < (l.set i b).length := by simpa using h
  have hb : (l.set i b).get ⟨i, h2⟩ = b := by
    simp [List.get_eq_getElem]
  rw [List.get_of_eq e ⟨i, h2⟩] at hb
  exact hb.symm

/-- The encrypt handler on a JSON-parseable string without a password. -/
theorem encryptHandler_parse (H : String → String) (envKey : Option String)
    (salt iv : Bytes) (s : String) (v : Js) (hp : jsParse s = some v) :
    encryptHandler H envKey salt iv ⟨some (.str s), none⟩
      = .okEncrypted (encryptWithAppSecret envKey salt iv (jsRender v)) := by
  have hne : s ≠ "" := by
    intro e
    subst e
    rw [show jsParse "" = none from rfl] at hp
    cases hp
  rw [encryptHandler]
  simp [Js.truthy, hne, hp, truthyS]

/-- The encrypt handler on a non-string truthy document without a password. -/
theorem encryptHandler_obj (H : String → String) (envKey : Option String)
    (salt iv : Bytes) (v : Js) (ht : v.truthy = true) (hns : ∀ s, v ≠ .str s) :
    encryptHandler H envKey salt iv ⟨some v, none⟩
      = .okEncrypted (encryptWithAppSecret envKey salt iv (jsRender v)) := by
  rw [encryptHandler]
  match v, ht with
  | .num n, ht => simp_all [Js.truthy, truthyS]
  | .bool b, ht => simp [Js.truthy, truthyS] at ht ⊢; simp [ht]
  | .str s, ht => exact absurd rfl (hns s)
  | .arr es, ht => simp [Js.truthy, truthyS]
  | .obj ms, ht => simp [Js.truthy, truthyS]

/-- The encrypt handler on an object document with a (truthy) password:
the digest is spliced into the document before encryption. -/
theorem encryptHandler_password (H : String → String) (envKey : Option String)
    (salt iv : Bytes) (ms : List (String × Js)) (W : String) (hW : W ≠ "")
    (hnk : ∀ kv ∈ ms, kv.1 ≠ "passwordHash") :
    encryptHandler H envKey salt iv ⟨some (.obj ms), some W⟩
      = .okEncrypted (encryptWithAppSecret envKey salt iv
          (jsRender (.obj (ms ++ [("passwordHash", .str (H W))])))) := by
  rw [encryptHandler]
  simp only [Js.truthy, Bool.not_true, Bool.false_eq_true, if_false, truthyS_of_ne hW,
    if_true, jsSpread, Option.getD_some]
  rw [setKey_append _ hnk]

/-! ## The claims -/

/-- A stand-in for the SHA-256 hex digest in concrete instances. -/
def digestFn : String → String := fun s => "#" ++ s

/-- A concrete 16-byte salt, as `crypto.getRandomValues(new Uint8Array(16))`
might draw it. -/
def cexSalt : Bytes := List.replicate 16 37

/-- A concrete 12-byte iv. -/
def cexIv : Bytes := List.replicate 12 99

/-- The envelope for the concrete document `(a := 1)` under secret `S`. -/
def c1Env : Envelope :=
  encryptWithAppSecret (some "S") cexSalt cexIv (jsRender (.obj [("a", .num 1)]))

/-- Claim C6: a decrypt request whose envelope is missing `salt`, `iv` or
`ciphertext` is rejected with status 400 (`Invalid encrypted data format.`)
and the cryptographic pipeline (key derivation, AEAD open) is never
invoked (the instrumentation counter stays 0). -/
theorem c6_missing_field_rejected (H : String → String) (envKey : Option String)
    (doc : EnvelopeDoc) (pw : Option String)
    (h : doc.salt = none ∨ doc.iv = none ∨ doc.ciphertext = none) :
    decryptRun H envKey ⟨some doc, pw⟩
      = (.error 400 "Invalid encrypted data format.", 0) := by
  obtain ⟨ds, di, dc⟩ := doc
  rw [decryptRun]
  rcases h with h | h | h
  · rw [show (⟨ds, di, dc⟩ : EnvelopeDoc).salt = ds from rfl] at h
    subst h
    simp [truthyS]
  · rw [show (⟨ds, di, dc⟩ : EnvelopeDoc).iv = di from rfl] at h
    subst h
    simp [truthyS]
  · rw [show (⟨ds, di, dc⟩ : EnvelopeDoc).ciphertext = dc from rfl] at h
    subst h
    simp [truthyS]

/-- Witness for C6 at a concrete request: the envelope lacks `salt`. -/
theorem c6_missing_field_rejected_witness :
    ((⟨none, some "x", some "y"⟩ : EnvelopeDoc).salt = none
      ∨ (⟨none, some "x", some "y"⟩ : EnvelopeDoc).iv = none
      ∨ (⟨none, some "x", some "y"⟩ : EnvelopeDoc).ciphertext = none)
    ∧ decryptRun digestFn (some "S") ⟨some ⟨none, some "x", some "y"⟩, none⟩
        = (.error 400 "Invalid encrypted data format.", 0) :=
  ⟨Or.inl rfl,
   c6_missing_field_rejected digestFn (some "S") ⟨none, some "x", some "y"⟩ none
     (Or.inl rfl)⟩

/-- Claim C7, counterexample: an envelope whose three fields are not valid
base64 text is not rejected as a format error; Node's lenient decoder
accepts it, the cryptographic pipeline runs (counter 1), and the request
fails with the generic 500 decryption error instead of a 400. -/
theorem c7_counterexample :
    decryptRun digestFn (some "S") ⟨some ⟨some "!!!", some "???", some "@@@"⟩, none⟩
      = (.error 500 "Decryption failed. Invalid data or corrupted file.", 1) := rfl

/-- Claim C7, amended: base64 decoding is lenient and never rejects; once
the three fields are present and non-empty the handler always runs the
cryptographic pipeline (counter 1) and never answers with a 400 format
error, whatever the fields contain. -/
theorem c7_lenient_decode (H : String → String) (envKey : Option String)
    (doc : EnvelopeDoc) (pw : Option String)
    (hs : truthyS doc.salt = true) (hiv : truthyS doc.iv = true)
    (hc : truthyS doc.ciphertext = true) :
    (decryptRun H envKey ⟨some doc, pw⟩).snd = 1
    ∧ (decryptRun H envKey ⟨some doc, pw⟩).fst.status ≠ 400 := by
  rw [decryptRun]
  simp only [hs, hiv, hc, Bool.and_self, Bool.not_true, Bool.false_eq_true, if_false]
  split
  · exact ⟨rfl, by simp [Resp.status]⟩
  · split
    · split
      · split
        · split
          · exact ⟨rfl, by simp [Resp.status]⟩
          · split
            · exact ⟨rfl, by simp [Resp.status]⟩
            · exact ⟨rfl, by simp [Resp.status]⟩
        · exact ⟨rfl, by simp [Resp.status]⟩
      · exact ⟨rfl, by simp [Resp.status]⟩
    · exact ⟨rfl, by simp [Resp.status]⟩

/-- A structurally valid decrypt request whose cryptographic pipeline
rejects gets the generic 500 answer. -/
theorem decryptRun_cryptoFail (H : String → String) (envKey : Option String)
    (s64 i64 c64 : String) (pw : Option String)
    (hs : s64 ≠ "") (hiv : i64 ≠ "") (hc : c64 ≠ "")
    (hfail : decryptWithAppSecret envKey s64 i64 c64 = none) :
    decryptRun H envKey ⟨some ⟨some s64, some i64, some c64⟩, pw⟩
      = (.error 500 "Decryption failed. Invalid data or corrupted file.", 1) := by
  rw [decryptRun]
  simp only [truthyS_of_ne hs, truthyS_of_ne hiv, truthyS_of_ne hc, Bool.and_self,
    Bool.not_true, Bool.false_eq_true, if_false,
    show (⟨some s64, some i64, some c64⟩ : EnvelopeDoc).salt = some s64 from rfl,
    show (⟨some s64, some i64, some c64⟩ : EnvelopeDoc).iv = some i64 from rfl,
    show (⟨some s64, some i64, some c64⟩ : EnvelopeDoc).ciphertext = some c64 from rfl,
    Option.getD_some]
  rw [hfail]

/-- Claim C8: with a valid envelope for any plaintext, changing any single
byte of the (decoded) ciphertext, salt or iv makes the decrypt request fail
with the generic 500 decryption error — never a 200 with corrupted data. -/
theorem c8_tamper_detected (H : String → String) (envKey : Option String)
    (salt iv : Bytes) (text : String)
    (hs : salt.length = 16) (hiv : iv.length = 12) :
    (∀ (i : Nat) (h : i < (aeadSeal (deriveEncryptionKey envKey salt) iv
        (textEncode text)).length) (b : Byte),
      b ≠ (aeadSeal (deriveEncryptionKey envKey salt) iv (textEncode text)).get ⟨i, h⟩ →
      decryptRun H envKey ⟨some ⟨some (bufferToBase64 salt), some (bufferToBase64 iv),
        some (bufferToBase64 ((aeadSeal (deriveEncryptionKey envKey salt) iv
          (textEncode text)).set i b))⟩, none⟩
        = (.error 500 "Decryption failed. Invalid data or corrupted file.", 1))
    ∧ (∀ (i : Nat) (h : i < salt.length) (b : Byte), b ≠ salt.get ⟨i, h⟩ →
      decryptRun H envKey ⟨some ⟨some (bufferToBase64 (salt.set i b)),
        some (bufferToBase64 iv),
        some (bufferToBase64 (aeadSeal (deriveEncryptionKey envKey salt) iv
          (textEncode text)))⟩, none⟩
        = (.error 500 "Decryption failed. Invalid data or corrupted file.", 1))
    ∧ (∀ (i : Nat) (h : i < iv.length) (b : Byte), b ≠ iv.get ⟨i, h⟩ →
      decryptRun H envKey ⟨some ⟨some (bufferToBase64 salt),
        some (bufferToBase64 (iv.set i b)),
        some (bufferToBase64 (aeadSeal (deriveEncryptionKey envKey salt) iv
          (textEncode text)))⟩, none⟩
        = (.error 500 "Decryption failed. Invalid data or corrupted file.", 1)) := by
  have hsn : salt ≠ [] := by intro e; rw [e] at hs; simp at hs
  have hivn : iv ≠ [] := by intro e; rw [e] at hiv; simp at hiv
  refine ⟨?_, ?_, ?_⟩
  · intro i h b hne
    apply decryptRun_cryptoFail H envKey _ _ _ none
      (bufferToBase64_ne_empty hsn) (bufferToBase64_ne_empty hivn)
      (bufferToBase64_ne_empty ?_) ?_
    · intro e
      have := congrArg List.length e
      simp at this
      exact aeadSeal_ne_nil _ _ _ this
    · rw [decryptWithAppSecret]
      simp only [base64_roundtrip]
      rw [aeadOpen_tamper _ _ _ _ _ i b h hne]
      rfl
  · intro i h b hne
    have hlen : (salt.set i b) ≠ [] := by
      intro e
      have := congrArg List.length e
      simp at this
      rw [this] at hs
      simp at hs
    apply decryptRun_cryptoFail H envKey _ _ _ none
      (bufferToBase64_ne_empty hlen) (bufferToBase64_ne_empty hivn)
      (bufferToBase64_ne_empty (aeadSeal_ne_nil _ _ _))
    rw [decryptWithAppSecret]
    simp only [base64_roundtrip]
    rw [aeadOpen_seal]
    rw [if_neg]
    · rfl
    · rintro ⟨hk, -⟩
      exact set_ne_of_get_ne h hne (congrArg DerivedKey.salt hk).symm
  · intro i h b hne
    have hlen : (iv.set i b) ≠ [] := by
      intro e
      have := congrArg List.length e
      simp at this
      rw [this] at hiv
      simp at hiv
    apply decryptRun_cryptoFail H envKey _ _ _ none
      (bufferToBase64_ne_empty hsn) (bufferToBase64_ne_empty hlen)
      (bufferToBase64_ne_empty (aeadSeal_ne_nil _ _ _))
    rw [decryptWithAppSecret]
    simp only [base64_roundtrip]
    rw [aeadOpen_seal]
    rw [if_neg]
    · rfl
    · rintro ⟨-, hk⟩
      exact set_ne_of_get_ne h hne hk.symm

/-- Witness for C8 at a concrete envelope: flipping ciphertext byte 0. -/
theorem c8_tamper_detected_witness :
    cexSalt.length = 16 ∧ cexIv.length = 12
    ∧ decryptRun digestFn (some "S") ⟨some ⟨some (bufferToBase64 cexSalt),
        some (bufferToBase64 cexIv),
        some (bufferToBase64 ((aeadSeal (deriveEncryptionKey (some "S") cexSalt) cexIv
          (textEncode "hi")).set 0 (7 : Byte)))⟩, none⟩
        = (.error 500 "Decryption failed. Invalid data or corrupted file.", 1) := by
  refine ⟨by decide, by decide, ?_⟩
  exact (c8_tamper_detected digestFn (some "S") cexSalt cexIv "hi"
    (by decide) (by decide)).1 0 (by decide) 7 (by decide)

/-- Witness for C7's amended theorem at a concrete non-base64 envelope. -/
theorem c7_lenient_decode_witness :
    truthyS (some "!!!") = true
    ∧ (decryptRun digestFn (some "S")
        ⟨some ⟨some "!!!", some "???", some "@@@"⟩, none⟩).snd = 1
    ∧ (decryptRun digestFn (some "S")
        ⟨some ⟨some "!!!", some "???", some "@@@"⟩, none⟩).fst.status ≠ 400 := by
  refine ⟨by decide, ?_⟩
  exact c7_lenient_decode digestFn (some "S") ⟨some "!!!", some "???", some "@@@"⟩ none
    (by decide) (by decide) (by decide)

/-- Claim C9: a decrypted document whose `passwordHash` field is present but
falsy is treated as unprotected — decrypt returns the object unchanged, the
falsy `passwordHash` field included, whatever password is supplied. -/
theorem c9_falsy_hash_unprotected (H : String → String) (envKey : Option String)
    (salt iv : Bytes) (ms : List (String × Js)) (fv : Js) (pw : Option String)
    (hs : salt ≠ []) (hiv : iv ≠ [])
    (hget : getKey ms "passwordHash" = some fv) (hfalsy : fv.truthy = false) :
    decryptRun H envKey
      ⟨some (encryptWithAppSecret envKey salt iv (jsRender (.obj ms))).toDoc, pw⟩
      = (.okData (.obj ms), 1) := by
  rw [decryptRun_of_encrypt H envKey salt iv _ pw hs hiv, jsParse_render]
  simp [hget, hfalsy]

/-- Witness for C9: a concrete envelope carrying an empty-string
`passwordHash`, decrypted with an (irrelevant) password. -/
theorem c9_falsy_hash_unprotected_witness :
    cexSalt ≠ [] ∧ cexIv ≠ []
    ∧ getKey [("a", Js.num 1), ("passwordHash", Js.str "")] "passwordHash"
        = some (Js.str "")
    ∧ (Js.str "").truthy = false
    ∧ decryptRun digestFn (some "S")
        ⟨some (encryptWithAppSecret (some "S") cexSalt cexIv
          (jsRender (.obj [("a", Js.num 1), ("passwordHash", Js.str "")]))).toDoc,
         some "guess"⟩
        = (.okData (.obj [("a", Js.num 1), ("passwordHash", Js.str "")]), 1) := by
  refine ⟨by decide, by decide, rfl, rfl, ?_⟩
  exact c9_falsy_hash_unprotected digestFn (some "S") cexSalt cexIv
    [("a", Js.num 1), ("passwordHash", Js.str "")] (Js.str "") (some "guess")
    (by decide) (by decide) rfl rfl

/-- Claim C10: encrypting an object that already carries a truthy
`passwordHash`, without supplying a password, leaves the document unchanged;
the resulting envelope is then password-gated: no password gives 401
password-required, a password whose digest matches the stored field strips
the field and returns the rest, and a password whose digest differs gives
401 invalid-password. -/
theorem c10_preexisting_hash_gates (H : String → String) (envKey : Option String)
    (salt iv : Bytes) (ms : List (String × Js)) (hv : Js)
    (hs : salt ≠ []) (hiv : iv ≠ [])
    (hget : getKey ms "passwordHash" = some hv) (htruthy : hv.truthy = true) :
    encryptHandler H envKey salt iv ⟨some (.obj ms), none⟩
      = .okEncrypted (encryptWithAppSecret envKey salt iv (jsRender (.obj ms)))
    ∧ decryptRun H envKey
        ⟨some (encryptWithAppSecret envKey salt iv (jsRender (.obj ms))).toDoc, none⟩
        = (.error 401 "Password is required for this encrypted file.", 1)
    ∧ (∀ pw : String, pw ≠ "" → jsStrictEqStr (H pw) hv = true →
        decryptRun H envKey
          ⟨some (encryptWithAppSecret envKey salt iv (jsRender (.obj ms))).toDoc,
           some pw⟩
          = (.okData (.obj (removeKey ms "passwordHash")), 1))
    ∧ (∀ pw : String, pw ≠ "" → jsStrictEqStr (H pw) hv = false →
        decryptRun H envKey
          ⟨some (encryptWithAppSecret envKey salt iv (jsRender (.obj ms))).toDoc,
           some pw⟩
          = (.error 401 "Invalid password provided.", 1)) := by
  refine ⟨?_, ?_, ?_, ?_⟩
  · exact encryptHandler_obj H envKey salt iv (.obj ms) rfl
      (fun s h => Js.noConfusion h)
  · rw [decryptRun_of_encrypt H envKey salt iv _ none hs hiv, jsParse_render]
    simp [hget, htruthy, truthyS]
  · intro pw hpw heq
    rw [decryptRun_of_encrypt H envKey salt iv _ (some pw) hs hiv, jsParse_render]
    simp [hget, htruthy, truthyS_of_ne hpw, verifyUserPassword, heq]
  · intro pw hpw heq
    rw [decryptRun_of_encrypt H envKey salt iv _ (some pw) hs hiv, jsParse_render]
    simp [hget, htruthy, truthyS_of_ne hpw, verifyUserPassword, heq]

/-- Witness for C10: a document storing the digest of `pw`, decrypted with
no password, the right password, and a wrong one. -/
theorem c10_preexisting_hash_gates_witness :
    decryptRun digestFn (some "S")
        ⟨some (encryptWithAppSecret (some "S") cexSalt cexIv
          (jsRender (.obj [("a", Js.num 1), ("passwordHash", Js.str "#pw")]))).toDoc,
         none⟩
        = (.error 401 "Password is required for this encrypted file.", 1)
    ∧ decryptRun digestFn (some "S")
        ⟨some (encryptWithAppSecret (some "S") cexSalt cexIv
          (jsRender (.obj [("a", Js.num 1), ("passwordHash", Js.str "#pw")]))).toDoc,
         some "pw"⟩
        = (.okData (.obj [("a", Js.num 1)]), 1)
    ∧ decryptRun digestFn (some "S")
        ⟨some (encryptWithAppSecret (some "S") cexSalt cexIv
          (jsRender (.obj [("a", Js.num 1), ("passwordHash", Js.str "#pw")]))).toDoc,
         some "zz"⟩
        = (.error 401 "Invalid password provided.", 1) := by
  have h := c10_preexisting_hash_gates digestFn (some "S") cexSalt cexIv
    [("a", Js.num 1), ("passwordHash", Js.str "#pw")] (Js.str "#pw")
    (by decide) (by decide) rfl rfl
  exact ⟨h.2.1, h.2.2.1 "pw" (by decide) (by decide), h.2.2.2 "zz" (by decide) (by decide)⟩

/-- Counterexample to C1: the plaintext string `\x7b"a": 1\x7d` survives the
round trip only up to JSON re-canonicalisation — the client gets back
`\x7b"a":1\x7d`, which is not byte-identical to the input. -/
theorem c1_counterexample :
    encryptHandler digestFn (some "S") cexSalt cexIv
        ⟨some (.str "\x7b\"a\": 1\x7d"), none⟩
      = .okEncrypted c1Env
    ∧ clientDecryptResult (decryptHandler digestFn (some "S")
        ⟨some c1Env.toDoc, none⟩) = .ok "\x7b\"a\":1\x7d"
    ∧ "\x7b\"a\":1\x7d" ≠ "\x7b\"a\": 1\x7d" :=
  ⟨rfl, rfl, by decide⟩

/-- Claim C1 (amended): the round trip is the identity only on canonically
rendered, non-password-gated JSON: for such a value `v`, encrypting the
string `jsRender v` yields an envelope that decrypts back to `v`, and for
non-string `v` the client sees exactly the input text again. -/
theorem c1_roundtrip_amended (H : String → String) (envKey : Option String)
    (salt iv : Bytes) (v : Js)
    (hs : salt ≠ []) (hiv : iv ≠ []) (hprot : hasProtection v = false) :
    encryptHandler H envKey salt iv ⟨some (.str (jsRender v)), none⟩
      = .okEncrypted (encryptWithAppSecret envKey salt iv (jsRender v))
    ∧ decryptRun H envKey
        ⟨some (encryptWithAppSecret envKey salt iv (jsRender v)).toDoc, none⟩
        = (.okData v, 1)
    ∧ ((∀ s, v ≠ .str s) →
        clientDecryptResult (decryptHandler H envKey
          ⟨some (encryptWithAppSecret envKey salt iv (jsRender v)).toDoc, none⟩)
          = .ok (jsRender v)) := by
  have h2 : decryptRun H envKey
      ⟨some (encryptWithAppSecret envKey salt iv (jsRender v)).toDoc, none⟩
      = (.okData v, 1) := by
    rw [decryptRun_of_encrypt H envKey salt iv _ none hs hiv, jsParse_render]
    match v, hprot with
    | .obj ms, hprot =>
      simp only [Option.getD_some]
      rw [hasProtection] at hprot
      cases hg : getKey ms "passwordHash" with
      | none => simp [hg]
      | some hv =>
        rw [hg] at hprot
        simp at hprot
        simp [hg, hprot]
    | .null, _ => rfl
    | .bool b, _ => rfl
    | .num n, _ => rfl
    | .str s, _ => rfl
    | .arr es, _ => rfl
  refine ⟨encryptHandler_parse H envKey salt iv _ v (jsParse_render v), h2, ?_⟩
  intro hns
  rw [decryptHandler, h2]
  match v, hns with
  | .null, _ => rfl
  | .bool b, _ => rfl
  | .num n, _ => rfl
  | .arr es, _ => rfl
  | .obj ms, _ => rfl
  | .str s, hns => exact absurd rfl (hns s)

/-- Witness for C1's amended theorem at the concrete document `(a := 1)`. -/
theorem c1_roundtrip_amended_witness :
    cexSalt ≠ [] ∧ cexIv ≠ []
    ∧ hasProtection (.obj [("a", Js.num 1)]) = false
    ∧ decryptRun digestFn (some "S")
        ⟨some (encryptWithAppSecret (some "S") cexSalt cexIv
          (jsRender (.obj [("a", Js.num 1)]))).toDoc, none⟩
        = (.okData (.obj [("a", Js.num 1)]), 1) := by
  refine ⟨by decide, by decide, rfl, ?_⟩
  exact (c1_roundtrip_amended digestFn (some "S") cexSalt cexIv
    (.obj [("a", Js.num 1)]) (by decide) (by decide) rfl).2.1

/-- Counterexample to C2: a non-empty string that is not valid JSON is not
accepted as-is — the encrypt handler answers 500. -/
theorem c2_counterexample :
    encryptHandler digestFn (some "S") cexSalt cexIv ⟨some (.str "hello"), none⟩
      = .error 500 "Encryption failed. Please try again." := rfl

/-- Claim C2 (amended): a string `data` is not used as-is — it is
`JSON.parse`d and the parsed value re-stringified before encryption, and a
non-empty string that is not valid JSON is rejected with a 500; a truthy
non-string `data` is JSON-stringified and encrypted. -/
theorem c2_data_handling_amended (H : String → String) (envKey : Option String)
    (salt iv : Bytes) :
    (∀ (s : String) (v : Js), jsParse s = some v →
      encryptHandler H envKey salt iv ⟨some (.str s), none⟩
        = .okEncrypted (encryptWithAppSecret envKey salt iv (jsRender v)))
    ∧ (∀ s : String, s ≠ "" → jsParse s = none →
      encryptHandler H envKey salt iv ⟨some (.str s), none⟩
        = .error 500 "Encryption failed. Please try again.")
    ∧ (∀ v : Js, v.truthy = true → (∀ s, v ≠ .str s) →
      encryptHandler H envKey salt iv ⟨some v, none⟩
        = .okEncrypted (encryptWithAppSecret envKey salt iv (jsRender v))) := by
  refine ⟨fun s v hp => encryptHandler_parse H envKey salt iv s v hp, ?_,
    fun v ht hns => encryptHandler_obj H envKey salt iv v ht hns⟩
  intro s hne hp
  rw [encryptHandler]
  simp [Js.truthy, hne, hp]

/-- Witness for C2's amended theorem: `"hello"` is non-empty, fails to
parse, and is rejected with a 500. -/
theorem c2_data_handling_amended_witness :
    jsParse "hello" = none ∧ "hello" ≠ ""
    ∧ encryptHandler digestFn (some "S") cexSalt cexIv ⟨some (.str "hello"), none⟩
        = .error 500 "Encryption failed. Please try again." := by
  refine ⟨rfl, by decide, ?_⟩
  exact (c2_data_handling_amended digestFn (some "S") cexSalt cexIv).2.1 "hello"
    (by decide) rfl

/-- Counterexample to C3: with the empty password, no hash is spliced in and
the envelope decrypts with no password at all — none of the three password
round-trip clauses holds for `W = ""`. -/
theorem c3_counterexample :
    encryptHandler digestFn (some "S") cexSalt cexIv
        ⟨some (.obj [("a", Js.num 1)]), some ""⟩
      = .okEncrypted (encryptWithAppSecret (some "S") cexSalt cexIv
          (jsRender (.obj [("a", Js.num 1)])))
    ∧ decryptRun digestFn (some "S")
        ⟨some (encryptWithAppSecret (some "S") cexSalt cexIv
          (jsRender (.obj [("a", Js.num 1)]))).toDoc, none⟩
        = (.okData (.obj [("a", Js.num 1)]), 1) :=
  ⟨rfl, rfl⟩

/-- Claim C3 (amended): for a non-empty password `W` (with non-empty digest)
on an object without a reserved field, encrypt splices the digest in;
decrypting with `W` strips the field and returns the object, a password with
a different digest gets 401 invalid-password, and no password gets 401
password-required. -/
theorem c3_password_roundtrip_amended (H : String → String) (envKey : Option String)
    (salt iv : Bytes) (ms : List (String × Js)) (W : String)
    (hs : salt ≠ []) (hiv : iv ≠ []) (hW : W ≠ "") (hHW : H W ≠ "")
    (hnk : ∀ kv ∈ ms, kv.1 ≠ "passwordHash") :
    encryptHandler H envKey salt iv ⟨some (.obj ms), some W⟩
      = .okEncrypted (encryptWithAppSecret envKey salt iv
          (jsRender (.obj (ms ++ [("passwordHash", .str (H W))]))))
    ∧ decryptRun H envKey
        ⟨some (encryptWithAppSecret envKey salt iv
          (jsRender (.obj (ms ++ [("passwordHash", .str (H W))])))).toDoc, some W⟩
        = (.okData (.obj ms), 1)
    ∧ (∀ wrongW : String, wrongW ≠ "" → H wrongW ≠ H W →
        decryptRun H envKey
          ⟨some (encryptWithAppSecret envKey salt iv
            (jsRender (.obj (ms ++ [("passwordHash", .str (H W))])))).toDoc,
           some wrongW⟩
          = (.error 401 "Invalid password provided.", 1))
    ∧ decryptRun H envKey
        ⟨some (encryptWithAppSecret envKey salt iv
          (jsRender (.obj (ms ++ [("passwordHash", .str (H W))])))).toDoc, none⟩
        = (.error 401 "Password is required for this encrypted file.", 1) := by
  refine ⟨encryptHandler_password H envKey salt iv ms W hW hnk, ?_, ?_, ?_⟩
  · rw [decryptRun_of_encrypt H envKey salt iv _ (some W) hs hiv, jsParse_render]
    simp only [Option.getD_some, getKey_append_last]
    simp [Js.truthy, hHW, truthyS_of_ne hW, verifyUserPassword, jsStrictEqStr,
      removeKey_append _ hnk]
  · intro wrongW hw hne
    rw [decryptRun_of_encrypt H envKey salt iv _ (some wrongW) hs hiv, jsParse_render]
    simp only [Option.getD_some, getKey_append_last]
    simp [Js.truthy, hHW, truthyS_of_ne hw, verifyUserPassword, jsStrictEqStr, hne]
  · rw [decryptRun_of_encrypt H envKey salt iv _ none hs hiv, jsParse_render]
    simp only [Option.getD_some, getKey_append_last]
    simp [Js.truthy, hHW, truthyS]

/-- Witness for C3's amended theorem at password `pw`, wrong password `zz`. -/
theorem c3_password_roundtrip_amended_witness :
    decryptRun digestFn (some "S")
        ⟨some (encryptWithAppSecret (some "S") cexSalt cexIv
          (jsRender (.obj ([("a", Js.num 1)]
            ++ [("passwordHash", .str (digestFn "pw"))])))).toDoc, some "pw"⟩
      = (.okData (.obj [("a", Js.num 1)]), 1)
    ∧ decryptRun digestFn (some "S")
        ⟨some (encryptWithAppSecret (some "S") cexSalt cexIv
          (jsRender (.obj ([("a", Js.num 1)]
            ++ [("passwordHash", .str (digestFn "pw"))])))).toDoc, some "zz"⟩
      = (.error 401 "Invalid password provided.", 1)
    ∧ decryptRun digestFn (some "S")
        ⟨some (encryptWithAppSecret (some "S") cexSalt cexIv
          (jsRender (.obj ([("a", Js.num 1)]
            ++ [("passwordHash", .str (digestFn "pw"))])))).toDoc, none⟩
      = (.error 401 "Password is required for this encrypted file.", 1) := by
  have h := c3_password_roundtrip_amended digestFn (some "S") cexSalt cexIv
    [("a", Js.num 1)] "pw" (by decide) (by decide) (by decide) (by decide)
    (by decide)
  exact ⟨h.2.1, h.2.2.1 "zz" (by decide) (by decide), h.2.2.2⟩

set_option maxRecDepth 8192 in
/-- Counterexample to C4: the two password-gate failures carry different
message texts in the response body — missing and wrong password are
distinguishable at the HTTP layer. -/
theorem c4_counterexample :
    (decryptRun digestFn (some "S")
        ⟨some (encryptWithAppSecret (some "S") cexSalt cexIv
          (jsRender (.obj [("passwordHash", Js.str "#pw")]))).toDoc, none⟩).fst.errMsg
      = some "Password is required for this encrypted file."
    ∧ (decryptRun digestFn (some "S")
        ⟨some (encryptWithAppSecret (some "S") cexSalt cexIv
          (jsRender (.obj [("passwordHash", Js.str "#pw")]))).toDoc,
         some "zz"⟩).fst.errMsg
      = some "Invalid password provided."
    ∧ (some "Password is required for this encrypted file." : Option String)
      ≠ some "Invalid password provided." :=
  ⟨rfl, rfl, by decide⟩

/-- Claim C4 (amended): both password-gate failures are 401s, but their
response-body messages differ (the server does not collapse them); it is
the client service layer that re-wraps every failure into one fixed
message, making the two causes indistinguishable there. -/
theorem c4_auth_failures_amended (H : String → String) (envKey : Option String)
    (salt iv : Bytes) (ms : List (String × Js)) (hv : Js) (wrongW : String)
    (hs : salt ≠ []) (hiv : iv ≠ [])
    (hget : getKey ms "passwordHash" = some hv) (htruthy : hv.truthy = true)
    (hw : wrongW ≠ "") (hbad : jsStrictEqStr (H wrongW) hv = false) :
    decryptRun H envKey
        ⟨some (encryptWithAppSecret envKey salt iv (jsRender (.obj ms))).toDoc, none⟩
      = (.error 401 "Password is required for this encrypted file.", 1)
    ∧ decryptRun H envKey
        ⟨some (encryptWithAppSecret envKey salt iv (jsRender (.obj ms))).toDoc,
         some wrongW⟩
      = (.error 401 "Invalid password provided.", 1)
    ∧ "Password is required for this encrypted file."
        ≠ "Invalid password provided."
    ∧ clientDecryptResult (.error 401 "Password is required for this encrypted file.")
      = clientDecryptResult (.error 401 "Invalid password provided.") := by
  refine ⟨?_, ?_, by decide, rfl⟩
  · rw [decryptRun_of_encrypt H envKey salt iv _ none hs hiv, jsParse_render]
    simp [hget, htruthy, truthyS]
  · rw [decryptRun_of_encrypt H envKey salt iv _ (some wrongW) hs hiv, jsParse_render]
    simp [hget, htruthy, truthyS_of_ne hw, verifyUserPassword, hbad]

/-- Witness for C4's amended theorem at a concrete gated envelope. -/
theorem c4_auth_failures_amended_witness :
    decryptRun digestFn (some "S")
        ⟨some (encryptWithAppSecret (some "S") cexSalt cexIv
          (jsRender (.obj [("b", Js.bool true),
            ("passwordHash", Js.str "#pw")]))).toDoc, none⟩
      = (.error 401 "Password is required for this encrypted file.", 1)
    ∧ decryptRun digestFn (some "S")
        ⟨some (encryptWithAppSecret (some "S") cexSalt cexIv
          (jsRender (.obj [("b", Js.bool true),
            ("passwordHash", Js.str "#pw")]))).toDoc, some "zz"⟩
      = (.error 401 "Invalid password provided.", 1) := by
  have h := c4_auth_failures_amended digestFn (some "S") cexSalt cexIv
    [("b", Js.bool true), ("passwordHash", Js.str "#pw")] (.str "#pw") "zz"
    (by decide) (by decide) rfl rfl (by decide) (by decide)
  exact ⟨h.1, h.2.1⟩

/-- Counterexample to C5: with the secret absent, encryption succeeds (no
fail-fast configuration error), and decrypting a valid envelope sealed
under a real secret yields exactly the same generic 500 answer as feeding
undecodable garbage under the right secret — misconfiguration and
integrity failure are indistinguishable. -/
theorem c5_counterexample :
    encryptHandler digestFn none cexSalt cexIv ⟨some (.obj [("a", Js.num 1)]), none⟩
      = .okEncrypted (encryptWithAppSecret none cexSalt cexIv
          (jsRender (.obj [("a", Js.num 1)])))
    ∧ decryptRun digestFn none ⟨some c1Env.toDoc, none⟩
      = (.error 500 "Decryption failed. Invalid data or corrupted file.", 1)
    ∧ decryptRun digestFn (some "S")
        ⟨some ⟨some "***", some "%%%", some "$$$"⟩, none⟩
      = (.error 500 "Decryption failed. Invalid data or corrupted file.", 1) :=
  ⟨rfl, rfl, rfl⟩

/-- Claim C5 (amended): an absent secret does not fail fast — key
derivation silently treats it as the empty-string secret, and decrypting
any envelope sealed under a non-empty real secret produces the same
generic 500 integrity error, with no distinct configuration error. -/
theorem c5_missing_secret_amended (H : String → String) (salt iv : Bytes)
    (S text : String) (hs : salt ≠ []) (hiv : iv ≠ []) (hS : S ≠ "") :
    deriveEncryptionKey none salt = deriveEncryptionKey (some "") salt
    ∧ decryptRun H none
        ⟨some (encryptWithAppSecret (some S) salt iv text).toDoc, none⟩
        = (.error 500 "Decryption failed. Invalid data or corrupted file.", 1) := by
  refine ⟨rfl, ?_⟩
  have hE : (encryptWithAppSecret (some S) salt iv text).toDoc
      = ⟨some (bufferToBase64 salt), some (bufferToBase64 iv),
         some (bufferToBase64 (aeadSeal (deriveEncryptionKey (some S) salt) iv
           (textEncode text)))⟩ := rfl
  rw [hE]
  apply decryptRun_cryptoFail H none _ _ _ none
    (bufferToBase64_ne_empty hs) (bufferToBase64_ne_empty hiv)
    (bufferToBase64_ne_empty (aeadSeal_ne_nil _ _ _))
  rw [decryptWithAppSecret]
  simp only [base64_roundtrip]
  rw [aeadOpen_seal]
  rw [if_neg]
  · rfl
  · rintro ⟨hk, -⟩
    have h3 : textEncode S = textEncode "" := congrArg DerivedKey.material hk
    exact hS (textEncode_inj h3)

/-- Witness for C5's amended theorem under the real secret `S`. -/
theorem c5_missing_secret_amended_witness :
    deriveEncryptionKey none cexSalt = deriveEncryptionKey (some "") cexSalt
    ∧ decryptRun digestFn none
        ⟨some (encryptWithAppSecret (some "S") cexSalt cexIv "hi").toDoc, none⟩
        = (.error 500 "Decryption failed. Invalid data or corrupted file.", 1) :=
  c5_missing_secret_amended digestFn cexSalt cexIv "S" "hi"
    (by decide) (by decide) (by decide)

end CBDG
